import Mathlib

/-!
# Verification of the motioncam-fs virtual-filesystem / DNG transcoding core

This file gives a shallow embedding, in Lean 4, of the parts of the
motioncam-fs source that the specification's claims speak about:

* the variable-width bit packers of `src/src/Utils.cpp` (`encodeTo2Bit` ..
  `encodeTo14Bit`),
* the target-white / bit-depth selection block of `preprocessData`
  (`src/src/Utils.cpp`, lines 621-673),
* the linearization-table and level-tag section of `generateDng`
  (`src/src/Utils.cpp`, lines 1058-1094),
* frame-timing: `getFrameNumberFromTimestamp` and the CFR entry-generation
  loop of `VirtualFileSystemImpl_MCRAW::init`,
* the CFR target resolution (`determineCFRTarget` in
  `src/src/VirtualFileSystemImpl.cpp` and the copy inlined in
  `VirtualFileSystemImpl_MCRAW::init`),
* `syncAudio` (`src/src/VirtualFileSystemImpl.cpp`, lines 151-202),
* `ExposureKeyframes` parsing / evaluation (`src/src/DirectLogDecoder.cpp`),
* `toFraction` and `gcd` (`src/src/Utils.cpp`, lines 1116-1143),
* the read dispatch of `VirtualFileSystemImpl_MCRAW::readFile` and the
  window-copy logic of `generateFrame`.

C++ integers are embedded as `ℕ`/`ℤ` (with explicit `% 256` where a store
into `uint8_t` wraps); C++ `float`/`double` arithmetic over rationals is
embedded as `ℚ` where the computations are rational, and as `ℝ` for the
single transcendental computation (the log linearization table).
-/

/-! ## Arithmetic preliminaries: C-style casts, rounding, bit counting -/

/-- The result of C's `std::round` (round half away from zero) on a
nonnegative rational, as used on the always-nonnegative arguments in the
sources; for `q ≥ 0` it agrees with round-half-up. -/
def cround (q : ℚ) : ℤ :=
  if 0 ≤ q then ⌊q + 1/2⌋ else -⌊-q + 1/2⌋

/-- Truncation toward zero, the behaviour of a C cast from a floating
value to an integer type. -/
def ctrunc (q : ℚ) : ℤ :=
  if 0 ≤ q then ⌊q⌋ else -⌊-q⌋

/-- The value of `static_cast<unsigned short>(x)` for the in-range
nonnegative values the program produces. -/
def ushortCast (q : ℚ) : ℕ :=
  (ctrunc q).toNat

/-- Embeds the `while (value > 0) { value >>= 1; bits++; }` loop of
`bitsNeeded` (src/src/Utils.cpp, lines 80-92).  The C argument has type
`unsigned short`, so sixteen shift iterations always empty it; the loop is
given fuelled structural recursion (fuel 16 at the call site) so that
proofs can evaluate it. -/
def bitsLoopAux : ℕ → ℕ → ℕ
  | 0, _ => 0
  | fuel + 1, v => if v = 0 then 0 else bitsLoopAux fuel (v / 2) + 1

/-- Embeds `bitsNeeded` (src/src/Utils.cpp, lines 80-92): number of bits
needed to represent `value`, with `bitsNeeded 0 = 1`. -/
def bitsNeeded (value : ℕ) : ℕ :=
  if value = 0 then 1 else bitsLoopAux 16 value

/-! ## C7 - the bit packers (src/src/Utils.cpp, lines 249-477)

Each `encodeToNBit` walks the 16-bit sample buffer linearly, a block of
samples at a time, and emits the packed bytes; the byte stores are
`uint8_t` assignments, hence the `% 256`.  The C functions iterate rows
(`for y .. for x`), but since the width is a multiple of the block size
the traversal reads the buffer strictly linearly one block at a time,
which the list recursion below mirrors; the final `data.resize` keeps
exactly the emitted bytes, i.e. trailing samples short of a block are
dropped. -/

/-- Embeds `encodeTo10Bit` (src/src/Utils.cpp, lines 249-281): packs four
samples into five bytes. -/
def encodeTo10Bit : List ℕ → List ℕ
  | p0 :: p1 :: p2 :: p3 :: rest =>
      ((p0 >>> 2) % 256) ::
      ((((p0 &&& 3) <<< 6) ||| (p1 >>> 4)) % 256) ::
      ((((p1 &&& 15) <<< 4) ||| (p2 >>> 6)) % 256) ::
      ((((p2 &&& 63) <<< 2) ||| (p3 >>> 8)) % 256) ::
      ((p3 &&& 255) % 256) :: encodeTo10Bit rest
  | _ => []

/-- Embeds `encodeTo12Bit` (src/src/Utils.cpp, lines 283-310): packs two
samples into three bytes. -/
def encodeTo12Bit : List ℕ → List ℕ
  | p0 :: p1 :: rest =>
      ((p0 >>> 4) % 256) ::
      ((((p0 &&& 15) <<< 4) ||| (p1 >>> 8)) % 256) ::
      ((p1 &&& 255) % 256) :: encodeTo12Bit rest
  | _ => []

/-- Embeds `encodeTo14Bit` (src/src/Utils.cpp, lines 312-346): packs four
samples into seven bytes. -/
def encodeTo14Bit : List ℕ → List ℕ
  | p0 :: p1 :: p2 :: p3 :: rest =>
      ((p0 >>> 6) % 256) ::
      ((((p0 &&& 63) <<< 2) ||| (p1 >>> 12)) % 256) ::
      (((p1 >>> 4) &&& 255) % 256) ::
      ((((p1 &&& 15) <<< 4) ||| (p2 >>> 10)) % 256) ::
      (((p2 >>> 2) &&& 255) % 256) ::
      ((((p2 &&& 3) <<< 6) ||| (p3 >>> 8)) % 256) ::
      ((p3 &&& 255) % 256) :: encodeTo14Bit rest
  | _ => []

/-- Embeds `encodeTo8Bit` (src/src/Utils.cpp, lines 348-373): stores the
low byte of each sample. -/
def encodeTo8Bit : List ℕ → List ℕ
  | p0 :: rest => ((p0 &&& 255) % 256) :: encodeTo8Bit rest
  | _ => []

/-- Embeds `encodeTo6Bit` (src/src/Utils.cpp, lines 375-411): masks each
sample to six bits and packs four samples into three bytes. -/
def encodeTo6Bit : List ℕ → List ℕ
  | p0 :: p1 :: p2 :: p3 :: rest =>
      ((((p0 &&& 63) <<< 2) ||| ((p1 &&& 63) >>> 4)) % 256) ::
      (((((p1 &&& 63) &&& 15) <<< 4) ||| ((p2 &&& 63) >>> 2)) % 256) ::
      (((((p2 &&& 63) &&& 3) <<< 6) ||| (p3 &&& 63)) % 256) :: encodeTo6Bit rest
  | _ => []

/-- Embeds `encodeTo4Bit` (src/src/Utils.cpp, lines 413-443): masks each
sample to four bits and packs two samples into one byte. -/
def encodeTo4Bit : List ℕ → List ℕ
  | p0 :: p1 :: rest =>
      ((((p0 &&& 15) <<< 4) ||| (p1 &&& 15)) % 256) :: encodeTo4Bit rest
  | _ => []

/-- Embeds `encodeTo2Bit` (src/src/Utils.cpp, lines 445-477): packs four
samples into one byte, first sample in the two most significant bits. -/
def encodeTo2Bit : List ℕ → List ℕ
  | p0 :: p1 :: p2 :: p3 :: rest =>
      ((((p0 &&& 3) <<< 6) ||| ((p1 &&& 3) <<< 4) |||
        ((p2 &&& 3) <<< 2) ||| (p3 &&& 3)) % 256) :: encodeTo2Bit rest
  | _ => []

/-! The unpackers below are the inverse readers.  They are not part of the
repository (the consumer is the external DNG reader); they are modelled
from the spec: "all N-bit samples of each block are emitted MSB-first
within the byte sequence", i.e. each reader consumes the bytes of a block
as one MSB-first bitstream and splits it into N-bit samples. -/

/-- Modelled from the spec: MSB-first reader of 10-bit samples, the layout
consumed by the DNG reader. -/
def unpack10Bit : List ℕ → List ℕ
  | b0 :: b1 :: b2 :: b3 :: b4 :: rest =>
      ((b0 <<< 2) ||| (b1 >>> 6)) ::
      (((b1 &&& 63) <<< 4) ||| (b2 >>> 4)) ::
      (((b2 &&& 15) <<< 6) ||| (b3 >>> 2)) ::
      (((b3 &&& 3) <<< 8) ||| b4) :: unpack10Bit rest
  | _ => []

/-- Modelled from the spec: MSB-first reader of 12-bit samples. -/
def unpack12Bit : List ℕ → List ℕ
  | b0 :: b1 :: b2 :: rest =>
      ((b0 <<< 4) ||| (b1 >>> 4)) ::
      (((b1 &&& 15) <<< 8) ||| b2) :: unpack12Bit rest
  | _ => []

/-- Modelled from the spec: MSB-first reader of 14-bit samples. -/
def unpack14Bit : List ℕ → List ℕ
  | b0 :: b1 :: b2 :: b3 :: b4 :: b5 :: b6 :: rest =>
      ((b0 <<< 6) ||| (b1 >>> 2)) ::
      (((b1 &&& 3) <<< 12) ||| (b2 <<< 4) ||| (b3 >>> 4)) ::
      (((b3 &&& 15) <<< 10) ||| (b4 <<< 2) ||| (b5 >>> 6)) ::
      (((b5 &&& 63) <<< 8) ||| b6) :: unpack14Bit rest
  | _ => []

/-- Modelled from the spec: reader of 8-bit samples. -/
def unpack8Bit : List ℕ → List ℕ
  | b0 :: rest => b0 :: unpack8Bit rest
  | _ => []

/-- Modelled from the spec: MSB-first reader of 6-bit samples. -/
def unpack6Bit : List ℕ → List ℕ
  | b0 :: b1 :: b2 :: rest =>
      (b0 >>> 2) ::
      (((b0 &&& 3) <<< 4) ||| (b1 >>> 4)) ::
      (((b1 &&& 15) <<< 2) ||| (b2 >>> 6)) ::
      (b2 &&& 63) :: unpack6Bit rest
  | _ => []

/-- Modelled from the spec: MSB-first reader of 4-bit samples. -/
def unpack4Bit : List ℕ → List ℕ
  | b0 :: rest => (b0 >>> 4) :: (b0 &&& 15) :: unpack4Bit rest
  | _ => []

/-- Modelled from the spec: MSB-first reader of 2-bit samples. -/
def unpack2Bit : List ℕ → List ℕ
  | b0 :: rest =>
      (b0 >>> 6) :: ((b0 >>> 4) &&& 3) :: ((b0 >>> 2) &&& 3) :: (b0 &&& 3) :: unpack2Bit rest
  | _ => []

/-! Bridge lemmas between the C bit operators and arithmetic. -/

theorem shr_div (x k : ℕ) : x >>> k = x / 2 ^ k := Nat.shiftRight_eq_div_pow x k

theorem shl_mul (x k : ℕ) : x <<< k = x * 2 ^ k := Nat.shiftLeft_eq x k

theorem or_disj (k a b : ℕ) (ha : a % 2 ^ k = 0) (hb : b < 2 ^ k) :
    a ||| b = a + b := by
  obtain ⟨x, rfl⟩ := Nat.dvd_of_mod_eq_zero ha
  rw [← Nat.mul_add_lt_is_or hb x]

theorem and_mask3 (x : ℕ) : x &&& 3 = x % 4 := by
  have h := Nat.and_pow_two_sub_one_eq_mod x 2
  norm_num at h
  exact h

theorem and_mask15 (x : ℕ) : x &&& 15 = x % 16 := by
  have h := Nat.and_pow_two_sub_one_eq_mod x 4
  norm_num at h
  exact h

theorem and_mask63 (x : ℕ) : x &&& 63 = x % 64 := by
  have h := Nat.and_pow_two_sub_one_eq_mod x 6
  norm_num at h
  exact h

theorem and_mask255 (x : ℕ) : x &&& 255 = x % 256 := by
  have h := Nat.and_pow_two_sub_one_eq_mod x 8
  norm_num at h
  exact h

/-! Per-block inversion lemmas, one per packer.  Each takes the packed
bytes of one block abstractly, constrained to equal the packer's byte
formulas, and shows that the MSB-first reader recovers the samples. -/

theorem block10 (p0 p1 p2 p3 b0 b1 b2 b3 b4 : ℕ)
    (h0 : p0 < 1024) (h1 : p1 < 1024) (h2 : p2 < 1024) (h3 : p3 < 1024)
    (e0 : b0 = (p0 >>> 2) % 256)
    (e1 : b1 = (((p0 &&& 3) <<< 6) ||| (p1 >>> 4)) % 256)
    (e2 : b2 = (((p1 &&& 15) <<< 4) ||| (p2 >>> 6)) % 256)
    (e3 : b3 = (((p2 &&& 63) <<< 2) ||| (p3 >>> 8)) % 256)
    (e4 : b4 = (p3 &&& 255) % 256) :
    ((b0 <<< 2) ||| (b1 >>> 6)) = p0 ∧
    (((b1 &&& 63) <<< 4) ||| (b2 >>> 4)) = p1 ∧
    (((b2 &&& 15) <<< 6) ||| (b3 >>> 2)) = p2 ∧
    (((b3 &&& 3) <<< 8) ||| b4) = p3 := by
  simp only [and_mask3, and_mask15, and_mask63, and_mask255, shr_div, shl_mul] at e0 e1 e2 e3 e4 ⊢
  norm_num at e1 e2 e3 ⊢
  rw [or_disj 6 _ _ (by omega) (by omega)] at e1
  rw [or_disj 4 _ _ (by omega) (by omega)] at e2
  rw [or_disj 2 _ _ (by omega) (by omega)] at e3
  rw [or_disj 2 _ _ (by omega) (by omega), or_disj 4 _ _ (by omega) (by omega),
      or_disj 6 _ _ (by omega) (by omega), or_disj 8 _ _ (by omega) (by omega)]
  omega

theorem block12 (p0 p1 b0 b1 b2 : ℕ)
    (h0 : p0 < 4096) (h1 : p1 < 4096)
    (e0 : b0 = (p0 >>> 4) % 256)
    (e1 : b1 = (((p0 &&& 15) <<< 4) ||| (p1 >>> 8)) % 256)
    (e2 : b2 = (p1 &&& 255) % 256) :
    ((b0 <<< 4) ||| (b1 >>> 4)) = p0 ∧
    (((b1 &&& 15) <<< 8) ||| b2) = p1 := by
  simp only [and_mask15, and_mask255, shr_div, shl_mul] at e0 e1 e2 ⊢
  norm_num at e1 ⊢
  rw [or_disj 4 _ _ (by omega) (by omega)] at e1
  rw [or_disj 4 _ _ (by omega) (by omega), or_disj 8 _ _ (by omega) (by omega)]
  omega

theorem block14 (p0 p1 p2 p3 b0 b1 b2 b3 b4 b5 b6 : ℕ)
    (h0 : p0 < 16384) (h1 : p1 < 16384) (h2 : p2 < 16384) (h3 : p3 < 16384)
    (e0 : b0 = (p0 >>> 6) % 256)
    (e1 : b1 = (((p0 &&& 63) <<< 2) ||| (p1 >>> 12)) % 256)
    (e2 : b2 = ((p1 >>> 4) &&& 255) % 256)
    (e3 : b3 = (((p1 &&& 15) <<< 4) ||| (p2 >>> 10)) % 256)
    (e4 : b4 = ((p2 >>> 2) &&& 255) % 256)
    (e5 : b5 = (((p2 &&& 3) <<< 6) ||| (p3 >>> 8)) % 256)
    (e6 : b6 = (p3 &&& 255) % 256) :
    ((b0 <<< 6) ||| (b1 >>> 2)) = p0 ∧
    (((b1 &&& 3) <<< 12) ||| (b2 <<< 4) ||| (b3 >>> 4)) = p1 ∧
    (((b3 &&& 15) <<< 10) ||| (b4 <<< 2) ||| (b5 >>> 6)) = p2 ∧
    (((b5 &&& 63) <<< 8) ||| b6) = p3 := by
  simp only [and_mask3, and_mask15, and_mask63, and_mask255, shr_div, shl_mul]
    at e0 e1 e2 e3 e4 e5 e6 ⊢
  norm_num at e0 e1 e2 e3 e4 e5 e6 ⊢
  rw [or_disj 2 _ _ (by omega) (by omega)] at e1
  rw [or_disj 4 _ _ (by omega) (by omega)] at e3
  rw [or_disj 6 _ _ (by omega) (by omega)] at e5
  rw [or_disj 12 (b1 % 4 * 4096) (b2 * 16) (by omega) (by omega),
      or_disj 10 (b3 % 16 * 1024) (b4 * 4) (by omega) (by omega)]
  rw [or_disj 6 _ _ (by omega) (by omega), or_disj 4 _ _ (by omega) (by omega),
      or_disj 2 _ _ (by omega) (by omega), or_disj 8 _ _ (by omega) (by omega)]
  omega

theorem block8 (p0 b0 : ℕ) (h0 : p0 < 256) (e0 : b0 = (p0 &&& 255) % 256) : b0 = p0 := by
  simp only [and_mask255] at e0
  omega

theorem block6 (p0 p1 p2 p3 b0 b1 b2 : ℕ)
    (h0 : p0 < 64) (h1 : p1 < 64) (h2 : p2 < 64) (h3 : p3 < 64)
    (e0 : b0 = (((p0 &&& 63) <<< 2) ||| ((p1 &&& 63) >>> 4)) % 256)
    (e1 : b1 = ((((p1 &&& 63) &&& 15) <<< 4) ||| ((p2 &&& 63) >>> 2)) % 256)
    (e2 : b2 = ((((p2 &&& 63) &&& 3) <<< 6) ||| (p3 &&& 63)) % 256) :
    (b0 >>> 2) = p0 ∧
    (((b0 &&& 3) <<< 4) ||| (b1 >>> 4)) = p1 ∧
    (((b1 &&& 15) <<< 2) ||| (b2 >>> 6)) = p2 ∧
    (b2 &&& 63) = p3 := by
  simp only [and_mask3, and_mask15, and_mask63, shr_div, shl_mul] at e0 e1 e2 ⊢
  norm_num at e0 e1 e2 ⊢
  rw [or_disj 2 _ _ (by omega) (by omega)] at e0
  rw [or_disj 4 _ _ (by omega) (by omega)] at e1
  rw [or_disj 6 _ _ (by omega) (by omega)] at e2
  rw [or_disj 4 _ _ (by omega) (by omega), or_disj 2 _ _ (by omega) (by omega)]
  omega

theorem block4 (p0 p1 b0 : ℕ) (h0 : p0 < 16) (h1 : p1 < 16)
    (e0 : b0 = (((p0 &&& 15) <<< 4) ||| (p1 &&& 15)) % 256) :
    (b0 >>> 4) = p0 ∧ (b0 &&& 15) = p1 := by
  simp only [and_mask15, shr_div, shl_mul] at e0 ⊢
  norm_num at e0 ⊢
  rw [or_disj 4 _ _ (by omega) (by omega)] at e0
  omega

theorem block2 (p0 p1 p2 p3 b0 : ℕ)
    (h0 : p0 < 4) (h1 : p1 < 4) (h2 : p2 < 4) (h3 : p3 < 4)
    (e0 : b0 = ((((p0 &&& 3) <<< 6) ||| ((p1 &&& 3) <<< 4) |||
                 ((p2 &&& 3) <<< 2) ||| (p3 &&& 3)) % 256)) :
    (b0 >>> 6) = p0 ∧ ((b0 >>> 4) &&& 3) = p1 ∧ ((b0 >>> 2) &&& 3) = p2 ∧ (b0 &&& 3) = p3 := by
  simp only [and_mask3, shr_div, shl_mul] at e0 ⊢
  norm_num at e0 ⊢
  rw [or_disj 6 (p0 % 4 * 64) (p1 % 4 * 16) (by omega) (by omega),
      or_disj 4 (p0 % 4 * 64 + p1 % 4 * 16) (p2 % 4 * 4) (by omega) (by omega),
      or_disj 2 _ _ (by omega) (by omega)] at e0
  omega

/-! List-level packer round trips and output lengths. -/

theorem unpack10_encode10 : ∀ data : List ℕ, (∀ s ∈ data, s < 1024) → 4 ∣ data.length →
    unpack10Bit (encodeTo10Bit data) = data
  | [], _, _ => rfl
  | [p0], _, hd => by exfalso; simp only [List.length] at hd; omega
  | [p0, p1], _, hd => by exfalso; simp only [List.length] at hd; omega
  | [p0, p1, p2], _, hd => by exfalso; simp only [List.length] at hd; omega
  | p0 :: p1 :: p2 :: p3 :: rest, h, hd => by
      have hb := block10 p0 p1 p2 p3 _ _ _ _ _
        (h p0 (by simp)) (h p1 (by simp)) (h p2 (by simp)) (h p3 (by simp))
        rfl rfl rfl rfl rfl
      have hrest : ∀ s ∈ rest, s < 1024 := fun s hs => h s (by simp [hs])
      have hdrest : 4 ∣ rest.length := by simp only [List.length] at hd ⊢; omega
      simp only [encodeTo10Bit, unpack10Bit]
      rw [hb.1, hb.2.1, hb.2.2.1, hb.2.2.2, unpack10_encode10 rest hrest hdrest]

theorem unpack12_encode12 : ∀ data : List ℕ, (∀ s ∈ data, s < 4096) → 2 ∣ data.length →
    unpack12Bit (encodeTo12Bit data) = data
  | [], _, _ => rfl
  | [p0], _, hd => by exfalso; simp only [List.length] at hd; omega
  | p0 :: p1 :: rest, h, hd => by
      have hb := block12 p0 p1 _ _ _ (h p0 (by simp)) (h p1 (by simp)) rfl rfl rfl
      have hrest : ∀ s ∈ rest, s < 4096 := fun s hs => h s (by simp [hs])
      have hdrest : 2 ∣ rest.length := by simp only [List.length] at hd ⊢; omega
      simp only [encodeTo12Bit, unpack12Bit]
      rw [hb.1, hb.2, unpack12_encode12 rest hrest hdrest]

theorem unpack14_encode14 : ∀ data : List ℕ, (∀ s ∈ data, s < 16384) → 4 ∣ data.length →
    unpack14Bit (encodeTo14Bit data) = data
  | [], _, _ => rfl
  | [p0], _, hd => by exfalso; simp only [List.length] at hd; omega
  | [p0, p1], _, hd => by exfalso; simp only [List.length] at hd; omega
  | [p0, p1, p2], _, hd => by exfalso; simp only [List.length] at hd; omega
  | p0 :: p1 :: p2 :: p3 :: rest, h, hd => by
      have hb := block14 p0 p1 p2 p3 _ _ _ _ _ _ _
        (h p0 (by simp)) (h p1 (by simp)) (h p2 (by simp)) (h p3 (by simp))
        rfl rfl rfl rfl rfl rfl rfl
      have hrest : ∀ s ∈ rest, s < 16384 := fun s hs => h s (by simp [hs])
      have hdrest : 4 ∣ rest.length := by simp only [List.length] at hd ⊢; omega
      simp only [encodeTo14Bit, unpack14Bit]
      rw [hb.1, hb.2.1, hb.2.2.1, hb.2.2.2, unpack14_encode14 rest hrest hdrest]

theorem unpack8_encode8 : ∀ data : List ℕ, (∀ s ∈ data, s < 256) →
    unpack8Bit (encodeTo8Bit data) = data
  | [], _ => rfl
  | p0 :: rest, h => by
      have hb := block8 p0 _ (h p0 (by simp)) rfl
      have hrest : ∀ s ∈ rest, s < 256 := fun s hs => h s (by simp [hs])
      simp only [encodeTo8Bit, unpack8Bit]
      rw [hb, unpack8_encode8 rest hrest]

theorem unpack6_encode6 : ∀ data : List ℕ, (∀ s ∈ data, s < 64) → 4 ∣ data.length →
    unpack6Bit (encodeTo6Bit data) = data
  | [], _, _ => rfl
  | [p0], _, hd => by exfalso; simp only [List.length] at hd; omega
  | [p0, p1], _, hd => by exfalso; simp only [List.length] at hd; omega
  | [p0, p1, p2], _, hd => by exfalso; simp only [List.length] at hd; omega
  | p0 :: p1 :: p2 :: p3 :: rest, h, hd => by
      have hb := block6 p0 p1 p2 p3 _ _ _
        (h p0 (by simp)) (h p1 (by simp)) (h p2 (by simp)) (h p3 (by simp))
        rfl rfl rfl
      have hrest : ∀ s ∈ rest, s < 64 := fun s hs => h s (by simp [hs])
      have hdrest : 4 ∣ rest.length := by simp only [List.length] at hd ⊢; omega
      simp only [encodeTo6Bit, unpack6Bit]
      rw [hb.1, hb.2.1, hb.2.2.1, hb.2.2.2, unpack6_encode6 rest hrest hdrest]

theorem unpack4_encode4 : ∀ data : List ℕ, (∀ s ∈ data, s < 16) → 2 ∣ data.length →
    unpack4Bit (encodeTo4Bit data) = data
  | [], _, _ => rfl
  | [p0], _, hd => by exfalso; simp only [List.length] at hd; omega
  | p0 :: p1 :: rest, h, hd => by
      have hb := block4 p0 p1 _ (h p0 (by simp)) (h p1 (by simp)) rfl
      have hrest : ∀ s ∈ rest, s < 16 := fun s hs => h s (by simp [hs])
      have hdrest : 2 ∣ rest.length := by simp only [List.length] at hd ⊢; omega
      simp only [encodeTo4Bit, unpack4Bit]
      rw [hb.1, hb.2, unpack4_encode4 rest hrest hdrest]

theorem unpack2_encode2 : ∀ data : List ℕ, (∀ s ∈ data, s < 4) → 4 ∣ data.length →
    unpack2Bit (encodeTo2Bit data) = data
  | [], _, _ => rfl
  | [p0], _, hd => by exfalso; simp only [List.length] at hd; omega
  | [p0, p1], _, hd => by exfalso; simp only [List.length] at hd; omega
  | [p0, p1, p2], _, hd => by exfalso; simp only [List.length] at hd; omega
  | p0 :: p1 :: p2 :: p3 :: rest, h, hd => by
      have hb := block2 p0 p1 p2 p3 _
        (h p0 (by simp)) (h p1 (by simp)) (h p2 (by simp)) (h p3 (by simp)) rfl
      have hrest : ∀ s ∈ rest, s < 4 := fun s hs => h s (by simp [hs])
      have hdrest : 4 ∣ rest.length := by simp only [List.length] at hd ⊢; omega
      simp only [encodeTo2Bit, unpack2Bit]
      rw [hb.1, hb.2.1, hb.2.2.1, hb.2.2.2, unpack2_encode2 rest hrest hdrest]

theorem encodeTo10Bit_length : ∀ data : List ℕ,
    (encodeTo10Bit data).length = data.length / 4 * 5
  | [] => rfl
  | [p0] => by simp [encodeTo10Bit]
  | [p0, p1] => by simp [encodeTo10Bit]
  | [p0, p1, p2] => by simp [encodeTo10Bit]
  | p0 :: p1 :: p2 :: p3 :: rest => by
      simp only [encodeTo10Bit, List.length]
      rw [encodeTo10Bit_length rest]
      omega

theorem encodeTo12Bit_length : ∀ data : List ℕ,
    (encodeTo12Bit data).length = data.length / 2 * 3
  | [] => rfl
  | [p0] => by simp [encodeTo12Bit]
  | p0 :: p1 :: rest => by
      simp only [encodeTo12Bit, List.length]
      rw [encodeTo12Bit_length rest]
      omega

theorem encodeTo14Bit_length : ∀ data : List ℕ,
    (encodeTo14Bit data).length = data.length / 4 * 7
  | [] => rfl
  | [p0] => by simp [encodeTo14Bit]
  | [p0, p1] => by simp [encodeTo14Bit]
  | [p0, p1, p2] => by simp [encodeTo14Bit]
  | p0 :: p1 :: p2 :: p3 :: rest => by
      simp only [encodeTo14Bit, List.length]
      rw [encodeTo14Bit_length rest]
      omega

theorem encodeTo8Bit_length : ∀ data : List ℕ,
    (encodeTo8Bit data).length = data.length / 1 * 1
  | [] => rfl
  | p0 :: rest => by
      simp only [encodeTo8Bit, List.length]
      rw [encodeTo8Bit_length rest]
      omega

theorem encodeTo6Bit_length : ∀ data : List ℕ,
    (encodeTo6Bit data).length = data.length / 4 * 3
  | [] => rfl
  | [p0] => by simp [encodeTo6Bit]
  | [p0, p1] => by simp [encodeTo6Bit]
  | [p0, p1, p2] => by simp [encodeTo6Bit]
  | p0 :: p1 :: p2 :: p3 :: rest => by
      simp only [encodeTo6Bit, List.length]
      rw [encodeTo6Bit_length rest]
      omega

theorem encodeTo4Bit_length : ∀ data : List ℕ,
    (encodeTo4Bit data).length = data.length / 2 * 1
  | [] => rfl
  | [p0] => by simp [encodeTo4Bit]
  | p0 :: p1 :: rest => by
      simp only [encodeTo4Bit, List.length]
      rw [encodeTo4Bit_length rest]
      omega

theorem encodeTo2Bit_length : ∀ data : List ℕ,
    (encodeTo2Bit data).length = data.length / 4 * 1
  | [] => rfl
  | [p0] => by simp [encodeTo2Bit]
  | [p0, p1] => by simp [encodeTo2Bit]
  | [p0, p1, p2] => by simp [encodeTo2Bit]
  | p0 :: p1 :: p2 :: p3 :: rest => by
      simp only [encodeTo2Bit, List.length]
      rw [encodeTo2Bit_length rest]
      omega

/-- C7: for every buffer of 16-bit samples all strictly below `2^N` whose
length is a multiple of the packer's block size, packing to `N` bits
(MSB-first within each block's byte group) followed by unpacking
reproduces the input samples exactly, and the packed output has exactly
`blocks × stride` bytes; this holds for each `N` in
`{2, 4, 6, 8, 10, 12, 14}` with the corresponding (block, stride) of
`(4,1), (2,1), (4,3), (1,1), (4,5), (2,3), (4,7)`. -/
theorem C7_packer_roundtrip (data : List ℕ) :
    ((∀ s ∈ data, s < 2 ^ 2) → 4 ∣ data.length →
      unpack2Bit (encodeTo2Bit data) = data) ∧
    (encodeTo2Bit data).length = data.length / 4 * 1 ∧
    ((∀ s ∈ data, s < 2 ^ 4) → 2 ∣ data.length →
      unpack4Bit (encodeTo4Bit data) = data) ∧
    (encodeTo4Bit data).length = data.length / 2 * 1 ∧
    ((∀ s ∈ data, s < 2 ^ 6) → 4 ∣ data.length →
      unpack6Bit (encodeTo6Bit data) = data) ∧
    (encodeTo6Bit data).length = data.length / 4 * 3 ∧
    ((∀ s ∈ data, s < 2 ^ 8) → 1 ∣ data.length →
      unpack8Bit (encodeTo8Bit data) = data) ∧
    (encodeTo8Bit data).length = data.length / 1 * 1 ∧
    ((∀ s ∈ data, s < 2 ^ 10) → 4 ∣ data.length →
      unpack10Bit (encodeTo10Bit data) = data) ∧
    (encodeTo10Bit data).length = data.length / 4 * 5 ∧
    ((∀ s ∈ data, s < 2 ^ 12) → 2 ∣ data.length →
      unpack12Bit (encodeTo12Bit data) = data) ∧
    (encodeTo12Bit data).length = data.length / 2 * 3 ∧
    ((∀ s ∈ data, s < 2 ^ 14) → 4 ∣ data.length →
      unpack14Bit (encodeTo14Bit data) = data) ∧
    (encodeTo14Bit data).length = data.length / 4 * 7 := by
  refine ⟨fun h hd => unpack2_encode2 data (by norm_num at h; exact h) hd,
    encodeTo2Bit_length data,
    fun h hd => unpack4_encode4 data (by norm_num at h; exact h) hd,
    encodeTo4Bit_length data,
    fun h hd => unpack6_encode6 data (by norm_num at h; exact h) hd,
    encodeTo6Bit_length data,
    fun h _ => unpack8_encode8 data (by norm_num at h; exact h),
    encodeTo8Bit_length data,
    fun h hd => unpack10_encode10 data (by norm_num at h; exact h) hd,
    encodeTo10Bit_length data,
    fun h hd => unpack12_encode12 data (by norm_num at h; exact h) hd,
    encodeTo12Bit_length data,
    fun h hd => unpack14_encode14 data (by norm_num at h; exact h) hd,
    encodeTo14Bit_length data⟩

/-- Witness for C7 at the concrete buffer `[1, 2, 3, 0]` (samples below
`2^2`, hence below every `2^N`, length divisible by each block size). -/
theorem C7_packer_roundtrip_witness :
    (∀ s ∈ ([1, 2, 3, 0] : List ℕ), s < 2 ^ 2) ∧
    (4 ∣ ([1, 2, 3, 0] : List ℕ).length) ∧
    unpack2Bit (encodeTo2Bit [1, 2, 3, 0]) = [1, 2, 3, 0] ∧
    unpack4Bit (encodeTo4Bit [1, 2, 3, 0]) = [1, 2, 3, 0] ∧
    unpack6Bit (encodeTo6Bit [1, 2, 3, 0]) = [1, 2, 3, 0] ∧
    unpack8Bit (encodeTo8Bit [1, 2, 3, 0]) = [1, 2, 3, 0] ∧
    unpack10Bit (encodeTo10Bit [1, 2, 3, 0]) = [1, 2, 3, 0] ∧
    unpack12Bit (encodeTo12Bit [1, 2, 3, 0]) = [1, 2, 3, 0] ∧
    unpack14Bit (encodeTo14Bit [1, 2, 3, 0]) = [1, 2, 3, 0] := by
  have h := C7_packer_roundtrip [1, 2, 3, 0]
  exact ⟨by decide, by decide,
    h.1 (by decide) (by decide),
    h.2.2.1 (by decide) (by decide),
    h.2.2.2.2.1 (by decide) (by decide),
    h.2.2.2.2.2.2.1 (by decide) (by decide),
    h.2.2.2.2.2.2.2.2.1 (by decide) (by decide),
    h.2.2.2.2.2.2.2.2.2.2.1 (by decide) (by decide),
    h.2.2.2.2.2.2.2.2.2.2.2.2.1 (by decide) (by decide)⟩

/-! ## C3 - target-white and bit-depth selection in `preprocessData`
(src/src/Utils.cpp, lines 621-673) -/

/-- Embeds the `useBits` / `dstWhiteLevel` selection block of
`preprocessData` (src/src/Utils.cpp, lines 621-673).  `w` is the value of
`dstWhiteLevel` (= `srcWhiteLevel` after the level override) when the
block is entered; the result is the triple of the C locals at the end of
the block: `useBits` (a C `int`, so possibly negative), `dstWhiteLevel`
(a C `float`, embedded as `ℚ`; `std::pow(2.0f, useBits) - 1` becomes the
integer power `2 ^ useBits - 1`), and whether the destination black
levels were zeroed.  The shading-map mutations performed in the same
branches (`colorOnlyShadingMap`, `normalizeShadingMap`,
`invertShadingMap`) do not touch the levels and are elided.
`preprocessData` finally returns `static_cast<unsigned short>` of the
white level, i.e. `ushortCast` of the second component. -/
def targetWhiteSelection (applyShadingMap normaliseShadingMap debugShadingMap : Bool)
    (logTransform : String) (w : ℚ) : ℤ × ℚ × Bool :=
  if applyShadingMap then
    if normaliseShadingMap then
      (min 16 ((bitsNeeded (ushortCast w) : ℤ) + 4), w, true)
    else if debugShadingMap then
      (0, w, true)
    else if logTransform ≠ "" then
      if logTransform = "Reduce by 4bit" then
        (min 16 ((bitsNeeded (ushortCast w) : ℤ) - 4),
         2 ^ min 16 ((bitsNeeded (ushortCast w) : ℤ) - 4) - 1, true)
      else if logTransform = "Reduce by 6bit" then
        (min 16 ((bitsNeeded (ushortCast w) : ℤ) - 6),
         2 ^ min 16 ((bitsNeeded (ushortCast w) : ℤ) - 6) - 1, true)
      else if logTransform = "Reduce by 8bit" then
        (min 16 ((bitsNeeded (ushortCast w) : ℤ) - 8),
         2 ^ min 16 ((bitsNeeded (ushortCast w) : ℤ) - 8) - 1, true)
      else if logTransform ≠ "Keep Input" then
        (min 16 ((bitsNeeded (ushortCast w) : ℤ) - 2),
         2 ^ min 16 ((bitsNeeded (ushortCast w) : ℤ) - 2) - 1, true)
      else
        (min 16 ((bitsNeeded (ushortCast w) : ℤ) + 2),
         2 ^ min 16 ((bitsNeeded (ushortCast w) : ℤ) + 2) - 1, true)
    else
      (min 16 ((bitsNeeded (ushortCast w) : ℤ) + 2),
       2 ^ min 16 ((bitsNeeded (ushortCast w) : ℤ) + 2) - 1, true)
  else if logTransform ≠ "" then
    if logTransform = "Reduce by 2bit" then
      (min 16 ((bitsNeeded (ushortCast w) : ℤ) - 2),
       2 ^ min 16 ((bitsNeeded (ushortCast w) : ℤ) - 2) - 1, true)
    else if logTransform = "Reduce by 4bit" then
      (min 16 ((bitsNeeded (ushortCast w) : ℤ) - 4),
       2 ^ min 16 ((bitsNeeded (ushortCast w) : ℤ) - 4) - 1, true)
    else if logTransform = "Reduce by 6bit" then
      (min 16 ((bitsNeeded (ushortCast w) : ℤ) - 6),
       2 ^ min 16 ((bitsNeeded (ushortCast w) : ℤ) - 6) - 1, true)
    else if logTransform = "Reduce by 8bit" then
      (min 16 ((bitsNeeded (ushortCast w) : ℤ) - 8),
       2 ^ min 16 ((bitsNeeded (ushortCast w) : ℤ) - 8) - 1, true)
    else
      (0, w, true)
  else
    (0, w, false)

/-- C3 counterexample: with the shading map applied and normalised and
`W = 1023`, the code selects `useBits = min(16, bits(W)+4) = 14` but
leaves the destination white level at `1023`, not `2^14 - 1 = 16383`;
`preprocessData` hence returns white `1023` even though `useBits` was
selected, refuting the claim's clause that the returned white always
equals `2^useBits - 1`. -/
theorem C3_counterexample :
    (targetWhiteSelection true true false "" 1023).1 = 14 ∧
    ushortCast (targetWhiteSelection true true false "" 1023).2.1 = 1023 ∧
    (1023 : ℕ) ≠ 2 ^ 14 - 1 := by
  refine ⟨by decide, by decide, by norm_num⟩

theorem ushortCast_two_zpow_sub_one (u : ℤ) (hu : 0 ≤ u) :
    ushortCast ((2 : ℚ) ^ u - 1) = 2 ^ u.toNat - 1 := by
  lift u to ℕ using hu
  rw [zpow_natCast]
  have h1 : (1 : ℚ) ≤ 2 ^ u := one_le_pow₀ (by norm_num)
  have h2 : ((2 : ℚ) ^ u - 1) = ((2 ^ u - 1 : ℕ) : ℚ) := by
    push_cast [Nat.one_le_two_pow]
    ring
  rw [ushortCast, ctrunc, if_pos (by linarith), h2, Int.floor_natCast, Int.toNat_natCast,
    Int.toNat_natCast]

/-- C3 (amended): in `preprocessData`'s target-white selection, with the
shading map applied and normalised, `useBits = min(16, bits(W)+4)` but the
destination white level is left unchanged at `W` (not `2^useBits - 1`);
with no shading map and `logTransform = "Reduce by Nbit"` for
`N ∈ {2,4,6,8}`, `useBits = min(16, bits(W)-N)` and the white level is set
to `2^useBits - 1`, so that (whenever `useBits ≥ 0`) the white level
returned by `preprocessData` is `2^useBits - 1`. -/
theorem C3_target_white (nm dbg : Bool) (lt : String) (w : ℚ) :
    ((targetWhiteSelection true true dbg lt w).1 =
        min 16 ((bitsNeeded (ushortCast w) : ℤ) + 4) ∧
     (targetWhiteSelection true true dbg lt w).2.1 = w) ∧
    ((targetWhiteSelection false nm dbg "Reduce by 2bit" w).1 =
        min 16 ((bitsNeeded (ushortCast w) : ℤ) - 2) ∧
     (targetWhiteSelection false nm dbg "Reduce by 2bit" w).2.1 =
        2 ^ (targetWhiteSelection false nm dbg "Reduce by 2bit" w).1 - 1 ∧
     (0 ≤ (targetWhiteSelection false nm dbg "Reduce by 2bit" w).1 →
       ushortCast (targetWhiteSelection false nm dbg "Reduce by 2bit" w).2.1 =
         2 ^ (targetWhiteSelection false nm dbg "Reduce by 2bit" w).1.toNat - 1)) ∧
    ((targetWhiteSelection false nm dbg "Reduce by 4bit" w).1 =
        min 16 ((bitsNeeded (ushortCast w) : ℤ) - 4) ∧
     (targetWhiteSelection false nm dbg "Reduce by 4bit" w).2.1 =
        2 ^ (targetWhiteSelection false nm dbg "Reduce by 4bit" w).1 - 1 ∧
     (0 ≤ (targetWhiteSelection false nm dbg "Reduce by 4bit" w).1 →
       ushortCast (targetWhiteSelection false nm dbg "Reduce by 4bit" w).2.1 =
         2 ^ (targetWhiteSelection false nm dbg "Reduce by 4bit" w).1.toNat - 1)) ∧
    ((targetWhiteSelection false nm dbg "Reduce by 6bit" w).1 =
        min 16 ((bitsNeeded (ushortCast w) : ℤ) - 6) ∧
     (targetWhiteSelection false nm dbg "Reduce by 6bit" w).2.1 =
        2 ^ (targetWhiteSelection false nm dbg "Reduce by 6bit" w).1 - 1 ∧
     (0 ≤ (targetWhiteSelection false nm dbg "Reduce by 6bit" w).1 →
       ushortCast (targetWhiteSelection false nm dbg "Reduce by 6bit" w).2.1 =
         2 ^ (targetWhiteSelection false nm dbg "Reduce by 6bit" w).1.toNat - 1)) ∧
    ((targetWhiteSelection false nm dbg "Reduce by 8bit" w).1 =
        min 16 ((bitsNeeded (ushortCast w) : ℤ) - 8) ∧
     (targetWhiteSelection false nm dbg "Reduce by 8bit" w).2.1 =
        2 ^ (targetWhiteSelection false nm dbg "Reduce by 8bit" w).1 - 1 ∧
     (0 ≤ (targetWhiteSelection false nm dbg "Reduce by 8bit" w).1 →
       ushortCast (targetWhiteSelection false nm dbg "Reduce by 8bit" w).2.1 =
         2 ^ (targetWhiteSelection false nm dbg "Reduce by 8bit" w).1.toNat - 1)) := by
  refine ⟨⟨rfl, rfl⟩,
    ⟨rfl, rfl, fun h => ushortCast_two_zpow_sub_one _ h⟩,
    ⟨rfl, rfl, fun h => ushortCast_two_zpow_sub_one _ h⟩,
    ⟨rfl, rfl, fun h => ushortCast_two_zpow_sub_one _ h⟩,
    ⟨rfl, rfl, fun h => ushortCast_two_zpow_sub_one _ h⟩⟩

/-- Witness for C3 at `W = 1023` (10 bits): for `"Reduce by 2bit"`,
`useBits = 8 ≥ 0` and the returned white is `2^8 - 1 = 255`. -/
theorem C3_target_white_witness :
    (0 : ℤ) ≤ (targetWhiteSelection false false false "Reduce by 2bit" (1023 : ℚ)).1 ∧
    ushortCast (targetWhiteSelection false false false "Reduce by 2bit" (1023 : ℚ)).2.1 =
      2 ^ (targetWhiteSelection false false false "Reduce by 2bit" (1023 : ℚ)).1.toNat - 1 :=
  ⟨by decide, ((C3_target_white false false "" 1023).2.1).2.2 (by decide)⟩

/-! ## C4 - linearization table and level tags in `generateDng`
(src/src/Utils.cpp, lines 1058-1094) -/

/-- Embeds one entry of the linearization table built in `generateDng`
(src/src/Utils.cpp, lines 1064-1086).  Entry 0 and entry
`tableSize - 1 = dstWhiteLevel` are forced to the exact identities 0 and
65535; every other entry inverts the log curve,
`(2^(normalized · log2(61)) - 1) / 60` clamped to `[0,1]`, and the C
`static_cast<unsigned short>(linearValue * 65535.0f)` truncates, i.e.
takes the floor of the nonnegative product. -/
noncomputable def linearizationTableEntry (dstWhiteLevel i : ℕ) : ℕ :=
  if i = 0 then 0
  else if i = dstWhiteLevel then 65535
  else
    ⌊(min 1 (max 0 (((2 : ℝ) ^ (((i : ℝ) / (dstWhiteLevel : ℝ)) * Real.logb 2 61) - 1) / 60)))
      * 65535⌋₊

/-- Embeds the tag-selection tail of `generateDng` (src/src/Utils.cpp,
lines 1058-1094): when `logTransform != "" && !(logTransform == "Keep
Input" && !applyShadingMap)`, emit a linearization table of
`dstWhiteLevel + 1` entries, BlackLevel `(0,0,0,0)` and WhiteLevel 65534;
otherwise no table and the preprocessed black/white levels. -/
noncomputable def dngLevelTags (logTransform : String) (applyShadingMap : Bool)
    (dstBlackLevel : List ℕ) (dstWhiteLevel : ℕ) :
    Option (List ℕ) × List ℕ × ℕ :=
  if logTransform ≠ "" ∧ ¬(logTransform = "Keep Input" ∧ applyShadingMap = false) then
    (some ((List.range (dstWhiteLevel + 1)).map (linearizationTableEntry dstWhiteLevel)),
     [0, 0, 0, 0], 65534)
  else
    (none, dstBlackLevel, dstWhiteLevel)

theorem two_rpow_mul_logb (x : ℝ) :
    (2 : ℝ) ^ (x * Real.logb 2 61) = (61 : ℝ) ^ x := by
  rw [mul_comm, Real.rpow_mul (by norm_num : (0:ℝ) ≤ 2),
    Real.rpow_logb (by norm_num) (by norm_num) (by norm_num)]

theorem sixtyone_rpow_pow15 :
    ((61 : ℝ) ^ ((4 : ℝ) / 15)) ^ (15 : ℕ) = 13845841 := by
  rw [← Real.rpow_natCast ((61 : ℝ) ^ ((4 : ℝ) / 15)) 15,
    ← Real.rpow_mul (by norm_num : (0:ℝ) ≤ 61)]
  rw [show ((4 : ℝ) / 15 * (15 : ℕ)) = ((4 : ℕ) : ℝ) by push_cast; ring]
  rw [Real.rpow_natCast]
  norm_num

theorem sixtyone_rpow_lb : (299286 / 100000 : ℝ) < (61 : ℝ) ^ ((4 : ℝ) / 15) := by
  by_contra hc
  push_neg at hc
  have h15 := pow_le_pow_left₀
    (le_of_lt (Real.rpow_pos_of_pos (by norm_num) ((4 : ℝ) / 15))) hc 15
  rw [sixtyone_rpow_pow15] at h15
  norm_num at h15

theorem sixtyone_rpow_ub : (61 : ℝ) ^ ((4 : ℝ) / 15) < (299288 / 100000 : ℝ) := by
  by_contra hc
  push_neg at hc
  have h15 := pow_le_pow_left₀ (by norm_num : (0:ℝ) ≤ 299288 / 100000) hc 15
  rw [sixtyone_rpow_pow15] at h15
  norm_num at h15

/-- C4 counterexample: at `destWhite = 15` (the 4-bit log table) and index
`i = 4`, the real value `65535 · ((2^((4/15)·log2 61) - 1) / 60)` lies in
`(2176.70, 2176.73)`, so the table entry written by the code (a C cast,
i.e. truncation) is 2176 while the claim's `round(...)` is 2177. -/
theorem C4_counterexample :
    linearizationTableEntry 15 4 = 2176 ∧
    round ((65535 : ℝ) *
      (((2 : ℝ) ^ (((4 : ℝ) / 15) * Real.logb 2 61) - 1) / 60)) = 2177 := by
  have hlb := sixtyone_rpow_lb
  have hub := sixtyone_rpow_ub
  constructor
  · rw [linearizationTableEntry]
    norm_num
    rw [two_rpow_mul_logb]
    rw [max_eq_right (by nlinarith), min_eq_right (by nlinarith)]
    rw [Nat.floor_eq_iff (by nlinarith)]
    constructor
    · push_cast
      nlinarith
    · push_cast
      nlinarith
  · rw [two_rpow_mul_logb, round_eq]
    apply Int.floor_eq_iff.mpr
    constructor
    · push_cast
      nlinarith
    · push_cast
      nlinarith

/-- C4 (amended): when the log transform is active
(`logTransform != ""` and not the `"Keep Input"`-without-shading-map
case), the emitted DNG contains a linearization table of length
`destWhite+1` whose entry `i` is the *truncation*
`⌊65535 · ((61^(i/destWhite) - 1) / 60)⌋` for `0 < i < destWhite`
(note `2^((i/destWhite)·log2 61) = 61^(i/destWhite)`), with exact
identity at both endpoints (entry 0 is 0, entry `destWhite` is 65535),
and the DNG's BlackLevel is `(0,0,0,0)` and its WhiteLevel is 65534. -/
theorem C4_linearization (logTransform : String) (applyShadingMap : Bool)
    (dstBlack : List ℕ) (dw : ℕ) (hdw : 1 ≤ dw)
    (hne : logTransform ≠ "")
    (hki : ¬(logTransform = "Keep Input" ∧ applyShadingMap = false)) :
    ∃ table : List ℕ,
      (dngLevelTags logTransform applyShadingMap dstBlack dw).1 = some table ∧
      table.length = dw + 1 ∧
      table.get? 0 = some 0 ∧
      table.get? dw = some 65535 ∧
      (∀ i, 0 < i → i < dw →
        table.get? i =
          some ⌊(((61 : ℝ) ^ ((i : ℝ) / (dw : ℝ)) - 1) / 60) * 65535⌋₊) ∧
      (dngLevelTags logTransform applyShadingMap dstBlack dw).2.1 = [0, 0, 0, 0] ∧
      (dngLevelTags logTransform applyShadingMap dstBlack dw).2.2 = 65534 := by
  rw [dngLevelTags, if_pos ⟨hne, hki⟩]
  refine ⟨_, rfl, by simp, ?_, ?_, ?_, rfl, rfl⟩
  · rw [List.get?_map, List.get?_range (by omega), Option.map_some']
    simp [linearizationTableEntry]
  · rw [List.get?_map, List.get?_range (by omega), Option.map_some']
    rw [linearizationTableEntry, if_neg (by omega), if_pos rfl]
  · intro i hi0 hid
    rw [List.get?_map, List.get?_range (by omega), Option.map_some']
    rw [linearizationTableEntry, if_neg (by omega), if_neg (by omega)]
    have hx0 : (0 : ℝ) ≤ (i : ℝ) / (dw : ℝ) := by positivity
    have hx1 : ((i : ℝ) / (dw : ℝ)) ≤ 1 := by
      rw [div_le_one (by positivity : (0:ℝ) < (dw : ℝ))]
      exact_mod_cast le_of_lt hid
    have hlow : (1 : ℝ) ≤ (61 : ℝ) ^ ((i : ℝ) / (dw : ℝ)) := by
      have h := Real.rpow_le_rpow_of_exponent_le (by norm_num : (1:ℝ) ≤ 61) hx0
      rwa [Real.rpow_zero] at h
    have hhigh : (61 : ℝ) ^ ((i : ℝ) / (dw : ℝ)) ≤ 61 := by
      have h := Real.rpow_le_rpow_of_exponent_le (by norm_num : (1:ℝ) ≤ 61) hx1
      rwa [Real.rpow_one] at h
    rw [two_rpow_mul_logb]
    rw [max_eq_right (by linarith), min_eq_right (by linarith)]

/-- Witness for C4 at `logTransform = "Reduce by 2bit"`, no shading map,
`destWhite = 3`. -/
theorem C4_linearization_witness :
    (1 ≤ 3) ∧ (("Reduce by 2bit" : String) ≠ "") ∧
    (¬(("Reduce by 2bit" : String) = "Keep Input" ∧ false = false)) ∧
    (∃ table : List ℕ,
      (dngLevelTags "Reduce by 2bit" false [0, 0, 0, 0] 3).1 = some table ∧
      table.length = 3 + 1 ∧
      table.get? 0 = some 0 ∧
      table.get? 3 = some 65535 ∧
      (∀ i, 0 < i → i < 3 →
        table.get? i =
          some ⌊(((61 : ℝ) ^ ((i : ℝ) / ((3 : ℕ) : ℝ)) - 1) / 60) * 65535⌋₊) ∧
      (dngLevelTags "Reduce by 2bit" false [0, 0, 0, 0] 3).2.1 = [0, 0, 0, 0] ∧
      (dngLevelTags "Reduce by 2bit" false [0, 0, 0, 0] 3).2.2 = 65534) :=
  ⟨by decide, by decide, by decide,
    C4_linearization "Reduce by 2bit" false [0, 0, 0, 0] 3 (by decide) (by decide) (by decide)⟩

/-! ## C6 - CFR target resolution

Two copies exist in the source: the shared `determineCFRTarget`
(src/src/VirtualFileSystemImpl.cpp, lines 50-104) and the copy inlined in
`VirtualFileSystemImpl_MCRAW::init` (src/src/VirtualFileSystemImpl_MCRAW.cpp,
lines 278-362).  `std::stof` (and the `std::invalid_argument` it throws on
non-numeric strings) is standard-library behaviour, abstracted as a
`parseFloat : String → Option ℚ` parameter; every branch the theorems
below touch is decided by string equality before any parse. -/

/-- Embeds `determineCFRTarget` (src/src/VirtualFileSystemImpl.cpp,
lines 50-104). -/
def determineCFRTarget (parseFloat : String → Option ℚ) (medianFps : ℚ)
    (cfrTarget : String) (applyCFRConversion : Bool) : ℚ :=
  if ¬applyCFRConversion ∨ cfrTarget = "" then
    match parseFloat cfrTarget with
    | some v => v
    | none => medianFps
  else if cfrTarget = "Prefer Integer" then
    if medianFps ≤ 23 ∨ medianFps ≥ 1000 then medianFps
    else if medianFps < 24.5 then 24
    else if medianFps < 26 then 25
    else if medianFps < 33 then 30
    else if medianFps < 49 then 48
    else if medianFps < 52 then 50
    else if medianFps > 56 ∧ medianFps < 63 then 60
    else if medianFps > 112 ∧ medianFps < 125 then 120
    else if medianFps > 224 ∧ medianFps < 250 then 240
    else if medianFps > 448 ∧ medianFps < 500 then 480
    else if medianFps > 896 ∧ medianFps < 1000 then 960
    else if medianFps ≥ 63 then 120
    else 60
  else if cfrTarget = "Prefer Drop Frame" then
    if medianFps ≤ 23 ∨ medianFps ≥ 1000 then medianFps
    else if medianFps < 24.5 then 23.976
    else if medianFps < 26 then 25
    else if medianFps < 33 then 29.97
    else if medianFps < 49 then 47.952
    else if medianFps < 52 then 50
    else if medianFps > 56 ∧ medianFps < 63 then 59.94
    else if medianFps > 112 ∧ medianFps < 125 then 119.88
    else if medianFps > 224 ∧ medianFps < 250 then 240
    else if medianFps > 448 ∧ medianFps < 500 then 480
    else if medianFps > 896 ∧ medianFps < 1000 then 960
    else if medianFps ≥ 63 then 119.88
    else 59.94
  else if cfrTarget = "Median (Slowmotion)" then medianFps
  else if cfrTarget = "Average (Testing)" then medianFps
  else
    match parseFloat cfrTarget with
    | some v => v
    | none => medianFps

/-- Embeds the CFR target resolution inlined in
`VirtualFileSystemImpl_MCRAW::init` (src/src/VirtualFileSystemImpl_MCRAW.cpp,
lines 278-362); unlike the shared `determineCFRTarget`, the
`"Average (Testing)"` preset resolves to the *average* frame rate, and the
no-conversion fallback on a parse failure uses the average as well. -/
def mcrawDetermineFps (parseFloat : String → Option ℚ) (medianFps averageFps : ℚ)
    (cfrTarget : String) (applyCFRConversion : Bool) : ℚ :=
  if applyCFRConversion ∧ cfrTarget ≠ "" then
    if cfrTarget = "Prefer Integer" then
      if medianFps ≤ 23 ∨ medianFps ≥ 1000 then medianFps
      else if medianFps < 24.5 then 24
      else if medianFps < 26 then 25
      else if medianFps < 33 then 30
      else if medianFps < 49 then 48
      else if medianFps < 52 then 50
      else if medianFps > 56 ∧ medianFps < 63 then 60
      else if medianFps > 112 ∧ medianFps < 125 then 120
      else if medianFps > 224 ∧ medianFps < 250 then 240
      else if medianFps > 448 ∧ medianFps < 500 then 480
      else if medianFps > 896 ∧ medianFps < 1000 then 960
      else if medianFps ≥ 63 then 120
      else 60
    else if cfrTarget = "Prefer Drop Frame" then
      if medianFps ≤ 23 ∨ medianFps ≥ 1000 then medianFps
      else if medianFps < 24.5 then 23.976
      else if medianFps < 26 then 25
      else if medianFps < 33 then 29.97
      else if medianFps < 49 then 47.952
      else if medianFps < 52 then 50
      else if medianFps > 56 ∧ medianFps < 63 then 59.94
      else if medianFps > 112 ∧ medianFps < 125 then 119.88
      else if medianFps > 224 ∧ medianFps < 250 then 240
      else if medianFps > 448 ∧ medianFps < 500 then 480
      else if medianFps > 896 ∧ medianFps < 1000 then 960
      else if medianFps ≥ 63 then 119.88
      else 59.94
    else if cfrTarget = "Median (Slowmotion)" then medianFps
    else if cfrTarget = "Average (Testing)" then averageFps
    else
      match parseFloat cfrTarget with
      | some v => v
      | none => medianFps
  else
    match parseFloat cfrTarget with
    | some v => v
    | none => averageFps

/-- C6 counterexample: with median 30 fps and average 29 fps, the MCRAW
`init` resolution of the `"Average (Testing)"` preset (with framerate
conversion enabled) yields the *average* 29, not the median 30 that the
claim asserts for every resolution site. -/
theorem C6_counterexample :
    mcrawDetermineFps (fun _ => none) 30 29 "Average (Testing)" true = 29 ∧
    mcrawDetermineFps (fun _ => none) 30 29 "Median (Slowmotion)" true = 30 ∧
    (29 : ℚ) ≠ 30 := by
  refine ⟨rfl, rfl, by norm_num⟩

/-- C6 (amended): the shared `determineCFRTarget` resolves
`"Average (Testing)"` (with framerate conversion enabled) to `medianFps`,
the same result as `"Median (Slowmotion)"`; the resolution inlined in
`VirtualFileSystemImpl_MCRAW::init`, however, resolves it to
`averageFps`. -/
theorem C6_average_preset (parseFloat : String → Option ℚ)
    (medianFps averageFps : ℚ) :
    determineCFRTarget parseFloat medianFps "Average (Testing)" true = medianFps ∧
    determineCFRTarget parseFloat medianFps "Average (Testing)" true =
      determineCFRTarget parseFloat medianFps "Median (Slowmotion)" true ∧
    mcrawDetermineFps parseFloat medianFps averageFps "Average (Testing)" true =
      averageFps := by
  exact ⟨rfl, rfl, rfl⟩

/-! ## C9 - `toFraction` and `gcd` (src/src/Utils.cpp, lines 1116-1143) -/

/-- Embeds the Euclid loop of `gcd` (src/src/Utils.cpp, lines 1116-1123);
both call-site arguments are nonnegative (`round` of a positive product,
and the positive `base`), so the `int` loop is modelled on `ℕ`.  The loop
is given fuelled structural recursion; since `b` strictly decreases each
iteration, fuel `b + 1` always suffices. -/
def cgcdAux : ℕ → ℕ → ℕ → ℕ
  | 0, a, _ => a
  | fuel + 1, a, b => if b = 0 then a else cgcdAux fuel b (a % b)

/-- Embeds `gcd` (src/src/Utils.cpp, lines 1116-1123). -/
def cgcd (a b : ℕ) : ℕ := cgcdAux (b + 1) a b

theorem cgcdAux_eq_gcd : ∀ (fuel a b : ℕ), b < fuel → cgcdAux fuel a b = Nat.gcd a b
  | 0, _, _, h => absurd h (by omega)
  | fuel + 1, a, b, h => by
      rw [cgcdAux]
      by_cases hb : b = 0
      · rw [if_pos hb, hb, Nat.gcd_zero_right]
      · rw [if_neg hb]
        rw [cgcdAux_eq_gcd fuel b (a % b) (by have := Nat.mod_lt a (by omega : 0 < b); omega)]
        rw [Nat.gcd_comm b (a % b), ← Nat.gcd_rec b a, Nat.gcd_comm b a]

theorem cgcd_eq_gcd (a b : ℕ) : cgcd a b = Nat.gcd a b :=
  cgcdAux_eq_gcd (b + 1) a b (by omega)

/-- Embeds `toFraction` (src/src/Utils.cpp, lines 1125-1143).
`std::round(frameRate * base)` is `cround` of the exact rational product;
the C locals `numerator`, `denominator` and `divisor` are written out:
the result is `(numerator / divisor, denominator / divisor)` with `int`
division (the operands are nonnegative here, where `ℤ` division agrees
with C's). -/
def toFraction (frameRate : ℚ) (base : ℕ) : ℤ × ℤ :=
  if frameRate ≤ 0 then (0, 1)
  else
    (cround (frameRate * base) / (cgcd (cround (frameRate * base)).toNat base : ℤ),
     (base : ℤ) / (cgcd (cround (frameRate * base)).toNat base : ℤ))

/-- C9: for `frameRate > 0` and `base > 0` (with `round(frameRate·base)`
inside the C `int` range `< 2^31 = 2147483648`, so no overflow),
`toFraction` returns a pair `(numerator, denominator)` with
`numerator/denominator = round(frameRate·base)/base` and
`gcd(numerator, denominator) = 1`; for `frameRate ≤ 0` it returns
`(0, 1)`. -/
theorem C9_toFraction (frameRate : ℚ) (base : ℕ) (hbase : 0 < base)
    (hofl : cround (frameRate * base) < 2147483648) :
    (0 < frameRate →
      ((toFraction frameRate base).1 : ℚ) / ((toFraction frameRate base).2 : ℚ) =
        ((cround (frameRate * base) : ℤ) : ℚ) / (base : ℚ) ∧
      Int.gcd (toFraction frameRate base).1 (toFraction frameRate base).2 = 1) ∧
    (frameRate ≤ 0 → toFraction frameRate base = (0, 1)) := by
  constructor
  · intro hpos
    have hnotle : ¬ frameRate ≤ 0 := not_le.mpr hpos
    have hprod : (0 : ℚ) < frameRate * base := by positivity
    have hn0 : 0 ≤ cround (frameRate * base) := by
      rw [cround, if_pos (le_of_lt hprod)]
      have h2 : (0 : ℚ) ≤ frameRate * base + 1/2 := by linarith
      exact Int.floor_nonneg.mpr h2
    obtain ⟨N, hN⟩ : ∃ N : ℕ, cround (frameRate * (base : ℚ)) = (N : ℤ) :=
      ⟨_, (Int.toNat_of_nonneg hn0).symm⟩
    have hgpos : 0 < Nat.gcd N base := Nat.gcd_pos_of_pos_right N hbase
    have hgq : ((Nat.gcd N base : ℚ)) ≠ 0 := by exact_mod_cast hgpos.ne'
    rw [toFraction, if_neg hnotle, hN]
    simp only [Int.toNat_natCast, cgcd_eq_gcd]
    rw [← Int.ofNat_ediv N (Nat.gcd N base), ← Int.ofNat_ediv base (Nat.gcd N base)]
    constructor
    · have hbq : ((base : ℚ)) ≠ 0 := by exact_mod_cast hbase.ne'
      rw [Int.cast_natCast, Int.cast_natCast, Int.cast_natCast,
        Nat.cast_div (Nat.gcd_dvd_left N base) hgq,
        Nat.cast_div (Nat.gcd_dvd_right N base) hgq]
      field_simp
    · rw [Int.gcd_natCast_natCast]
      exact Nat.coprime_div_gcd_div_gcd hgpos
  · intro hle
    rw [toFraction, if_pos hle]

/-- Witness for C9 at `frameRate = 29.97`, `base = 1000`. -/
theorem C9_toFraction_witness :
    (0 < (1000 : ℕ)) ∧ cround ((2997/100 : ℚ) * ((1000 : ℕ) : ℚ)) < 2147483648 ∧
    (0 < (2997/100 : ℚ) →
      ((toFraction (2997/100) 1000).1 : ℚ) / ((toFraction (2997/100) 1000).2 : ℚ) =
        ((cround ((2997/100 : ℚ) * ((1000 : ℕ) : ℚ)) : ℤ) : ℚ) / (((1000 : ℕ) : ℚ)) ∧
      Int.gcd (toFraction (2997/100) 1000).1 (toFraction (2997/100) 1000).2 = 1) ∧
    ((2997/100 : ℚ) ≤ 0 → toFraction (2997/100) 1000 = (0, 1)) :=
  ⟨by norm_num, by norm_num [cround],
    (C9_toFraction (2997/100) 1000 (by norm_num) (by norm_num [cround])).1,
    (C9_toFraction (2997/100) 1000 (by norm_num) (by norm_num [cround])).2⟩

/-! ## Entries, read windows and the `readFile` dispatch
(src/src/VirtualFileSystemImpl_MCRAW.cpp) -/

/-- Embeds the `Entry` value (include/Types.h via IVirtualFileSystem):
kind is always `FILE_ENTRY` for the entries these claims concern; `name`
is the `std::string` name as a character list, `size` the declared size
and `userData` the source timestamp tag. -/
structure Entry where
  name : List Char
  size : ℕ
  userData : ℤ
  /-- The frame number embedded in `name` by `constructFrameFilename`
  (kept as an explicit field so the statements can speak about the
  output index directly). -/
  idx : ℕ
deriving DecidableEq

/-- Embeds the window-copy logic of
`VirtualFileSystemImpl_MCRAW::generateFrame`
(src/src/VirtualFileSystemImpl_MCRAW.cpp, lines 586-594 and the identical
cache-hit path lines 506-518): if `pos < size` copy
`actualLen = min(len, size - pos)` bytes starting at `pos`, else copy
nothing.  Returns `(bytes copied, the copied bytes)`. -/
def readWindow (artifact : List ℕ) (pos len : ℕ) : ℕ × List ℕ :=
  if pos < artifact.length then
    (min len (artifact.length - pos), (artifact.drop pos).take (min len (artifact.length - pos)))
  else (0, [])

/-- Embeds `memcpy(dst, src, n)` into the head of a destination buffer:
the first `src.length` bytes of `dst` are replaced. -/
def copyInto (dst src : List ℕ) : List ℕ := src ++ dst.drop src.length

/-- Embeds `VirtualFileSystemImpl_MCRAW::readFile`
(src/src/VirtualFileSystemImpl_MCRAW.cpp, lines 640-666).  The
`desktop.ini` branch exists only on Windows (`isWin`); the `.wav` and
`.dng` suffix dispatches go to `generateAudio` / `generateFrame`, which
are taken as function parameters here (their internals involve the cache
and thread pools); any other entry returns `-1` with the destination
buffer untouched.  Returns `(return value, destination buffer after the
call)`. -/
def readFile (isWin : Bool)
    (generateAudio generateFrame : Entry → ℕ → ℕ → List ℕ → ℤ × List ℕ)
    (desktopIni : List ℕ) (entry : Entry) (pos len : ℕ) (dst : List ℕ) : ℤ × List ℕ :=
  if isWin ∧ entry.name = "desktop.ini".toList then
    ((min len (desktopIni.length - pos) : ℕ),
      copyInto dst ((desktopIni.drop pos).take (min len (desktopIni.length - pos))))
  else if "wav".toList.isSuffixOf entry.name then
    generateAudio entry pos len dst
  else if "dng".toList.isSuffixOf entry.name then
    generateFrame entry pos len dst
  else (-1, dst)

/-- C10: for every entry whose name is not `desktop.ini` and ends with
neither `wav` nor `dng`, `readFile` returns `-1` and writes no bytes to
the destination buffer, for all offsets and lengths, on both platforms
and whatever the audio/frame handlers do. -/
theorem C10_readFile_unknown_entry (isWin : Bool)
    (generateAudio generateFrame : Entry → ℕ → ℕ → List ℕ → ℤ × List ℕ)
    (desktopIni : List ℕ) (entry : Entry) (pos len : ℕ) (dst : List ℕ)
    (hname : entry.name ≠ "desktop.ini".toList)
    (hwav : "wav".toList.isSuffixOf entry.name = false)
    (hdng : "dng".toList.isSuffixOf entry.name = false) :
    readFile isWin generateAudio generateFrame desktopIni entry pos len dst = (-1, dst) := by
  rw [readFile, if_neg (fun h => hname h.2), hwav, hdng]
  simp

/-- Witness for C10 at the entry named `frame.txt`. -/
theorem C10_readFile_unknown_entry_witness :
    ((⟨"frame.txt".toList, 5, 0, 0⟩ : Entry).name ≠ "desktop.ini".toList) ∧
    ("wav".toList.isSuffixOf ("frame.txt".toList) = false) ∧
    ("dng".toList.isSuffixOf ("frame.txt".toList) = false) ∧
    readFile true (fun _ _ _ d => (0, d)) (fun _ _ _ d => (0, d)) []
      ⟨"frame.txt".toList, 5, 0, 0⟩ 0 3 [7, 7, 7] = (-1, [7, 7, 7]) :=
  ⟨by decide, by decide, by decide,
    C10_readFile_unknown_entry true (fun _ _ _ d => (0, d)) (fun _ _ _ d => (0, d)) []
      ⟨"frame.txt".toList, 5, 0, 0⟩ 0 3 [7, 7, 7] (by decide) (by decide) (by decide)⟩

/-! ## C5 - `syncAudio` (src/src/VirtualFileSystemImpl.cpp, lines 151-202;
the copy in src/src/VirtualFileSystemImpl_MCRAW.cpp lines 142-196 is
identical except that it lacks the empty-list guard) -/

/-- Embeds the sample-removal `while` loop of `syncAudio`
(src/src/VirtualFileSystemImpl.cpp, lines 171-186): whole chunks are
erased while they fit in the remaining budget; the first larger chunk is
trimmed from the front and its timestamp incremented by the C `int`
expression `remainingSamplesToRemove * 1000 / sampleRate`. -/
def syncAudioTrim (samplesToRemove sampleRate : ℕ) :
    List (ℤ × List ℤ) → List (ℤ × List ℤ)
  | [] => []
  | c :: rest =>
      if samplesToRemove = 0 then c :: rest
      else if c.2.length ≤ samplesToRemove then
        syncAudioTrim (samplesToRemove - c.2.length) sampleRate rest
      else
        (c.1 + ((samplesToRemove * 1000 / sampleRate : ℕ) : ℤ),
          c.2.drop samplesToRemove) :: rest

/-- Embeds `syncAudio` (src/src/VirtualFileSystemImpl.cpp, lines
151-202).  Chunks are `(timestamp in ns, samples)`.  The drift is the
float `(first audio ts - video ts) * 1e-6` (milliseconds), embedded
exactly over `ℚ`; `std::round` is `cround` and the float-to-`Timestamp`
store in the negative branch truncates (`ctrunc`). -/
def syncAudio (videoTimestamp : ℤ) (audioChunks : List (ℤ × List ℤ))
    (sampleRate numChannels : ℕ) : List (ℤ × List ℤ) :=
  match audioChunks with
  | [] => []
  | first :: _ =>
    let audioVideoDriftMs : ℚ := ((first.1 - videoTimestamp : ℤ) : ℚ) * (1 / 1000000)
    if 1000 < |audioVideoDriftMs| then audioChunks
    else if 0 < audioVideoDriftMs then
      let audioFramesToRemove : ℤ := cround (audioVideoDriftMs * sampleRate / 1000)
      let samplesToRemove : ℤ := audioFramesToRemove * numChannels
      syncAudioTrim samplesToRemove.toNat sampleRate audioChunks
    else
      let silenceDuration : ℚ := -audioVideoDriftMs
      let silenceFrames : ℤ := cround (silenceDuration * sampleRate / 1000)
      let silenceSamples : ℤ := silenceFrames * numChannels
      (videoTimestamp, List.replicate silenceSamples.toNat 0) ::
        audioChunks.map fun c => (ctrunc ((c.1 : ℚ) + silenceDuration), c.2)

/-- C5: evaluation of `syncAudio` at the failing input — video starts at
0 ns, one audio chunk at 500 ms (drift 500 ms ≤ 1 s) holding ten samples
at 10 Hz mono.  The positive-drift path trims the right number of frames
(5) but bumps the trimmed chunk's nanosecond timestamp by the
millisecond-scale quantity `5 * 1000 / 10 = 500` only, leaving the first
chunk at 500000500 ns — 500.0005 ms from the video start, far beyond the
claimed 1 ms bound. -/
theorem C5_sync_failure :
    syncAudio 0 [(500000000, [7, 7, 7, 7, 7, 7, 7, 7, 7, 7])] 10 1 =
      [(500000500, [7, 7, 7, 7, 7])] ∧
    ¬(|(500000500 : ℤ) - 0| ≤ 1000000) := by
  constructor
  · rw [syncAudio]
    norm_num [cround]
    norm_num [syncAudioTrim]
    decide
  · decide

/-! ## C2 - frame-number mapping and CFR entry generation
(src/src/VirtualFileSystemImpl_MCRAW.cpp, lines 102-117 and 396-478) -/

/-- Embeds `constructFrameFilename`
(src/src/VirtualFileSystemImpl_MCRAW.cpp, lines 119-140): base name,
zero-padded frame number (`std::setw(padding)`), and the extension with a
dot prepended when absent. -/
def constructFrameFilename (baseName : List Char) (frameNumber padding : ℕ)
    (extension : List Char) : List Char :=
  baseName ++
    (List.replicate (padding - (Nat.toDigits 10 frameNumber).length) '0' ++
      Nat.toDigits 10 frameNumber) ++
    (match extension with
     | [] => []
     | c :: _ => if c = '.' then extension else '.' :: extension)

/-- Embeds `getFrameNumberFromTimestamp`
(src/src/VirtualFileSystemImpl_MCRAW.cpp, lines 102-117): `-1` on a
non-positive frame rate or negative time difference, else
`std::round(timeDifference / (1e9 / frameRate))`. -/
def getFrameNumberFromTimestamp (timestamp referenceTimestamp : ℤ) (frameRate : ℚ) : ℤ :=
  if frameRate ≤ 0 then -1
  else if timestamp - referenceTimestamp < 0 then -1
  else cround (((timestamp - referenceTimestamp : ℤ) : ℚ) / (1000000000 / frameRate))

/-- Embeds one iteration count of the `while(lastPts < pts)` duplication
loop of `VirtualFileSystemImpl_MCRAW::init` (lines 453-464): starting
from `lastPts`, emit `fuel` entries with consecutive frame numbers, all
carrying the current source timestamp `x` as userData and the typical
DNG size. -/
def emitRunAux (typ : ℕ) (bn : List Char) (x : ℤ) : ℕ → ℤ → List Entry
  | 0, _ => []
  | fuel + 1, lastPts =>
      ⟨constructFrameFilename (bn ++ ['-']) lastPts.toNat 6 ['d', 'n', 'g'], typ, x,
        lastPts.toNat⟩ :: emitRunAux typ bn x fuel (lastPts + 1)

/-- The `while(lastPts < pts)` loop runs exactly `(pts - lastPts).toNat`
iterations (lastPts counts up to pts). -/
def emitRun (typ : ℕ) (bn : List Char) (lastPts pts x : ℤ) : List Entry :=
  emitRunAux typ bn x (pts - lastPts).toNat lastPts

/-- Embeds the CFR branch of the frame loop of
`VirtualFileSystemImpl_MCRAW::init` (lines 442-464): for each source
timestamp compute `pts`, emit the duplication run, and continue with
`lastPts = max lastPts pts` (the loop leaves `lastPts` unchanged when
`pts ≤ lastPts`). -/
def genCFRAux (typ : ℕ) (bn : List Char) (fps : ℚ) (t0 : ℤ) : ℤ → List ℤ → List Entry
  | _, [] => []
  | lastPts, x :: rest =>
      emitRun typ bn lastPts (getFrameNumberFromTimestamp x t0 fps) x ++
        genCFRAux typ bn fps t0 (max lastPts (getFrameNumberFromTimestamp x t0 fps)) rest

/-- Embeds the non-CFR branch of the frame loop (lines 465-476): one
entry per source timestamp with an incrementing frame number. -/
def genSeqAux (typ : ℕ) (bn : List Char) : ℕ → List ℤ → List Entry
  | _, [] => []
  | lastPts, x :: rest =>
      ⟨constructFrameFilename (bn ++ ['-']) lastPts 6 ['d', 'n', 'g'], typ, x, lastPts⟩
        :: genSeqAux typ bn (lastPts + 1) rest

/-- Embeds the video-frame entry generation of
`VirtualFileSystemImpl_MCRAW::init` (lines 396-478): `lastPts` starts at
0 and the reference timestamp is the first (sorted) frame. -/
def genEntries (applyCFRConversion : Bool) (typ : ℕ) (bn : List Char) (fps : ℚ)
    (frames : List ℤ) : List Entry :=
  match frames with
  | [] => []
  | t0 :: _ =>
      if applyCFRConversion then genCFRAux typ bn fps t0 0 frames
      else genSeqAux typ bn 0 frames

theorem emitRunAux_length (typ : ℕ) (bn : List Char) (x : ℤ) :
    ∀ (fuel : ℕ) (lastPts : ℤ), (emitRunAux typ bn x fuel lastPts).length = fuel
  | 0, _ => rfl
  | fuel + 1, lastPts => by
      simp only [emitRunAux, List.length_cons, emitRunAux_length typ bn x fuel]

theorem emitRunAux_idx (typ : ℕ) (bn : List Char) (x : ℤ) :
    ∀ (fuel : ℕ) (lastPts : ℤ), 0 ≤ lastPts →
      (emitRunAux typ bn x fuel lastPts).map Entry.idx = List.range' lastPts.toNat fuel
  | 0, _, _ => rfl
  | fuel + 1, lastPts, h => by
      simp only [emitRunAux, List.map_cons, List.range'_succ]
      rw [emitRunAux_idx typ bn x fuel (lastPts + 1) (by omega),
        show (lastPts + 1).toNat = lastPts.toNat + 1 by omega]

theorem emitRunAux_mem (typ : ℕ) (bn : List Char) (x : ℤ) :
    ∀ (fuel : ℕ) (lastPts : ℤ) (e : Entry), e ∈ emitRunAux typ bn x fuel lastPts →
      e.userData = x ∧ e.size = typ
  | 0, _, _, h => absurd h (by simp [emitRunAux])
  | fuel + 1, lastPts, e, h => by
      rcases (List.mem_cons).1 h with h1 | h1
      · subst h1; exact ⟨rfl, rfl⟩
      · exact emitRunAux_mem typ bn x fuel (lastPts + 1) e h1

theorem genCFRAux_mem (typ : ℕ) (bn : List Char) (fps : ℚ) (t0 : ℤ) :
    ∀ (xs : List ℤ) (lastPts : ℤ) (e : Entry), e ∈ genCFRAux typ bn fps t0 lastPts xs →
      e.size = typ ∧ e.userData ∈ xs
  | [], _, _, h => absurd h (by simp [genCFRAux])
  | x :: rest, lastPts, e, h => by
      rw [genCFRAux] at h
      rcases List.mem_append.1 h with h1 | h1
      · obtain ⟨hu, hs⟩ := emitRunAux_mem typ bn x _ _ e h1
        exact ⟨hs, by rw [hu]; exact List.mem_cons_self x rest⟩
      · obtain ⟨hs, hu⟩ := genCFRAux_mem typ bn fps t0 rest _ e h1
        exact ⟨hs, List.mem_cons_of_mem x hu⟩

theorem le_foldl_max (p : ℤ → ℤ) :
    ∀ (xs : List ℤ) (a : ℤ), a ≤ xs.foldl (fun b y => max b (p y)) a
  | [], _ => le_refl _
  | x :: rest, a =>
      le_trans (le_max_left a (p x)) (le_foldl_max p rest (max a (p x)))

theorem foldl_max_chain (p : ℤ → ℤ) :
    ∀ (xs : List ℤ) (x : ℤ) (a : ℤ),
      ((x :: xs).map p).Chain' (· ≤ ·) → a ≤ p x →
      (x :: xs).foldl (fun b y => max b (p y)) a = p ((x :: xs).getLast (by simp))
  | [], x, a, _, ha => by
      simp only [List.foldl_cons, List.foldl_nil, List.getLast_singleton]
      omega
  | y :: ys, x, a, hchain, ha => by
      have hxy : p x ≤ p y := by
        simp only [List.map_cons, List.chain'_cons] at hchain
        exact hchain.1
      have htail : ((y :: ys).map p).Chain' (· ≤ ·) := by
        simp only [List.map_cons, List.chain'_cons] at hchain ⊢
        exact hchain.2
      have hrec := foldl_max_chain p ys y (max a (p x)) htail (by omega)
      simp only [List.foldl_cons] at hrec ⊢
      rw [hrec, List.getLast_cons_cons]

theorem genCFRAux_idx_map (typ : ℕ) (bn : List Char) (fps : ℚ) (t0 : ℤ) :
    ∀ (xs : List ℤ) (lastPts : ℤ), 0 ≤ lastPts →
      (genCFRAux typ bn fps t0 lastPts xs).map Entry.idx =
        List.range' lastPts.toNat
          ((xs.foldl (fun b y => max b (getFrameNumberFromTimestamp y t0 fps)) lastPts).toNat
            - lastPts.toNat)
  | [], lastPts, h => by simp [genCFRAux]
  | x :: rest, lastPts, h => by
      rw [genCFRAux, List.map_append]
      rw [emitRun, emitRunAux_idx typ bn x _ lastPts h]
      rw [genCFRAux_idx_map typ bn fps t0 rest
        (max lastPts (getFrameNumberFromTimestamp x t0 fps)) (by omega)]
      have hfold := le_foldl_max (fun y => getFrameNumberFromTimestamp y t0 fps) rest
        (max lastPts (getFrameNumberFromTimestamp x t0 fps))
      rw [show (max lastPts (getFrameNumberFromTimestamp x t0 fps)).toNat =
            lastPts.toNat + (getFrameNumberFromTimestamp x t0 fps - lastPts).toNat by omega]
      rw [List.foldl_cons]
      rw [List.range'_append_1]
      congr 1
      omega

theorem genCFRAux_length (typ : ℕ) (bn : List Char) (fps : ℚ) (t0 : ℤ)
    (xs : List ℤ) (lastPts : ℤ) (h : 0 ≤ lastPts) :
    (genCFRAux typ bn fps t0 lastPts xs).length =
      (xs.foldl (fun b y => max b (getFrameNumberFromTimestamp y t0 fps)) lastPts).toNat
        - lastPts.toNat := by
  have hm := genCFRAux_idx_map typ bn fps t0 xs lastPts h
  have hl := congrArg List.length hm
  rwa [List.length_map, List.length_range'] at hl

theorem emitRunAux_filter_self (typ : ℕ) (bn : List Char) (x : ℤ) (fuel : ℕ) (lastPts : ℤ) :
    (emitRunAux typ bn x fuel lastPts).filter (fun e => e.userData == x) =
      emitRunAux typ bn x fuel lastPts := by
  apply List.filter_eq_self.mpr
  intro e he
  have h := (emitRunAux_mem typ bn x fuel lastPts e he).1
  simp [h]

theorem emitRunAux_filter_ne (typ : ℕ) (bn : List Char) (u x : ℤ) (hne : u ≠ x)
    (fuel : ℕ) (lastPts : ℤ) :
    (emitRunAux typ bn u fuel lastPts).filter (fun e => e.userData == x) = [] := by
  apply List.filter_eq_nil_iff.mpr
  intro e he
  have h := (emitRunAux_mem typ bn u fuel lastPts e he).1
  simp [h, hne]

theorem genCFRAux_filter_not_mem (typ : ℕ) (bn : List Char) (fps : ℚ) (t0 x : ℤ)
    (xs : List ℤ) (lastPts : ℤ) (hx : x ∉ xs) :
    (genCFRAux typ bn fps t0 lastPts xs).filter (fun e => e.userData == x) = [] := by
  apply List.filter_eq_nil_iff.mpr
  intro e he
  have h := (genCFRAux_mem typ bn fps t0 xs lastPts e he).2
  simp only [beq_iff_eq]
  intro hcontra
  exact hx (hcontra ▸ h)

theorem genCFRAux_filter_run (typ : ℕ) (bn : List Char) (fps : ℚ) (t0 : ℤ) :
    ∀ (pre : List ℤ) (x : ℤ) (post : List ℤ) (lastPts : ℤ), 0 ≤ lastPts →
      x ∉ pre → x ∉ post →
      ((genCFRAux typ bn fps t0 lastPts (pre ++ x :: post)).filter
          (fun e => e.userData == x)).map Entry.idx =
        List.range'
          (pre.foldl (fun b y => max b (getFrameNumberFromTimestamp y t0 fps)) lastPts).toNat
          ((max (pre.foldl (fun b y => max b (getFrameNumberFromTimestamp y t0 fps)) lastPts)
              (getFrameNumberFromTimestamp x t0 fps)).toNat -
            (pre.foldl (fun b y => max b (getFrameNumberFromTimestamp y t0 fps)) lastPts).toNat)
  | [], x, post, lastPts, h0, _, hpost => by
      simp only [List.nil_append, List.foldl_nil]
      rw [genCFRAux, List.filter_append, emitRun, emitRunAux_filter_self,
        genCFRAux_filter_not_mem typ bn fps t0 x post _ hpost, List.append_nil]
      rw [emitRunAux_idx typ bn x _ lastPts h0]
      congr 1
      omega
  | u :: pre', x, post, lastPts, h0, hpre, hpost => by
      have hux : u ≠ x := fun h => hpre (h ▸ List.mem_cons_self u pre')
      have hx' : x ∉ pre' := fun h => hpre (List.mem_cons_of_mem u h)
      rw [List.cons_append, genCFRAux, List.filter_append, emitRun,
        emitRunAux_filter_ne typ bn u x hux, List.nil_append]
      rw [genCFRAux_filter_run typ bn fps t0 pre' x post
        (max lastPts (getFrameNumberFromTimestamp u t0 fps)) (by omega) hx' hpost]
      rw [List.foldl_cons]

theorem cround_nonneg (q : ℚ) (h : 0 ≤ q) : 0 ≤ cround q := by
  rw [cround, if_pos h]
  have h2 : (0 : ℚ) ≤ q + 1/2 := by linarith
  exact Int.floor_nonneg.mpr h2

theorem pts_self (fps : ℚ) (hfps : 0 < fps) (t0 : ℤ) :
    getFrameNumberFromTimestamp t0 t0 fps = 0 := by
  rw [getFrameNumberFromTimestamp, if_neg (not_le.mpr hfps), if_neg (by omega)]
  norm_num [cround]

theorem pts_mono (fps : ℚ) (hfps : 0 < fps) (t0 a b : ℤ) (hab : a ≤ b) :
    getFrameNumberFromTimestamp a t0 fps ≤ getFrameNumberFromTimestamp b t0 fps := by
  rw [getFrameNumberFromTimestamp, getFrameNumberFromTimestamp,
    if_neg (not_le.mpr hfps), if_neg (not_le.mpr hfps)]
  by_cases hb : b - t0 < 0
  · rw [if_pos (by omega), if_pos hb]
  · rw [if_neg hb]
    by_cases ha : a - t0 < 0
    · rw [if_pos ha]
      have hq : (0 : ℚ) ≤ ((b - t0 : ℤ) : ℚ) / (1000000000 / fps) := by
        apply div_nonneg
        · exact_mod_cast by omega
        · positivity
      have := cround_nonneg _ hq
      omega
    · rw [if_neg ha]
      have hd : (0 : ℚ) < 1000000000 / fps := by positivity
      have hle : ((a - t0 : ℤ) : ℚ) ≤ ((b - t0 : ℤ) : ℚ) := by exact_mod_cast by omega
      have hqa : (0 : ℚ) ≤ ((a - t0 : ℤ) : ℚ) / (1000000000 / fps) :=
        div_nonneg (by exact_mod_cast by omega) (le_of_lt hd)
      have hqb : (0 : ℚ) ≤ ((b - t0 : ℤ) : ℚ) / (1000000000 / fps) :=
        div_nonneg (by exact_mod_cast by omega) (le_of_lt hd)
      rw [cround, cround, if_pos hqa, if_pos hqb]
      apply Int.floor_le_floor
      have hdiv := (div_le_div_right hd).mpr hle
      linarith

theorem foldl_max_chain_ne (p : ℤ → ℤ) (zs : List ℤ) (hne : zs ≠ []) (a : ℤ)
    (hchain : (zs.map p).Chain' (· ≤ ·)) (ha : a ≤ p (zs.head hne)) :
    zs.foldl (fun b y => max b (p y)) a = p (zs.getLast hne) := by
  cases zs with
  | nil => exact absurd rfl hne
  | cons x xs => exact foldl_max_chain p xs x a hchain ha

theorem pts_concrete (k : ℕ) (hk : k ≤ 300) :
    getFrameNumberFromTimestamp ((k : ℤ) * 33333333) 0 30 = k := by
  rw [getFrameNumberFromTimestamp, if_neg (by norm_num), if_neg (by omega)]
  have hknn : (0 : ℚ) ≤ ((k : ℚ) * 33333333) := by positivity
  have hcast : ((((k : ℤ) * 33333333 - 0 : ℤ)) : ℚ) = (k : ℚ) * 33333333 := by push_cast; ring
  rw [hcast, div_div_eq_mul_div]
  have hq : (0 : ℚ) ≤ (k : ℚ) * 33333333 * 30 / 1000000000 := by positivity
  rw [cround, if_pos hq]
  have hk' : ((k : ℚ)) ≤ 300 := by exact_mod_cast hk
  have hk0 : (0 : ℚ) ≤ (k : ℚ) := by positivity
  apply Int.floor_eq_iff.mpr
  constructor
  · push_cast
    linarith
  · push_cast
    linarith

theorem range300_frames :
    (List.range 300).map (fun k : ℕ => (k : ℤ) * 33333333) =
      (0 : ℤ) :: (List.range 299).map (fun k : ℕ => ((k : ℤ) + 1) * 33333333) := by
  rw [List.range_succ_eq_map, List.map_cons, List.map_map]
  norm_num

theorem frames300_chain :
    (((List.range 300).map (fun k : ℕ => (k : ℤ) * 33333333)).map
      (fun y => getFrameNumberFromTimestamp y 0 30)).Chain' (· ≤ ·) := by
  rw [List.chain'_map, List.chain'_map]
  apply List.Pairwise.chain'
  apply List.Pairwise.imp ?_ (List.pairwise_lt_range 300)
  intro a b hab
  apply pts_mono 30 (by norm_num) 0
  have hcast : ((a : ℤ)) ≤ (b : ℤ) := Int.ofNat_le.mpr (le_of_lt hab)
  exact mul_le_mul_of_nonneg_right hcast (by norm_num)

theorem entries300_length (typ : ℕ) (bn : List Char) :
    (genEntries true typ bn 30
      ((List.range 300).map (fun k : ℕ => (k : ℤ) * 33333333))).length = 299 := by
  have hchain := frames300_chain
  rw [range300_frames] at hchain ⊢
  have hgen : genEntries true typ bn 30
      ((0 : ℤ) :: (List.range 299).map (fun k : ℕ => ((k : ℤ) + 1) * 33333333)) =
      genCFRAux typ bn 30 0 0
        ((0 : ℤ) :: (List.range 299).map (fun k : ℕ => ((k : ℤ) + 1) * 33333333)) := rfl
  rw [hgen, genCFRAux_length typ bn 30 0 _ 0 (le_refl 0)]
  have hlast := foldl_max_chain_ne (fun y => getFrameNumberFromTimestamp y 0 30)
    ((0 : ℤ) :: (List.range 299).map (fun k : ℕ => ((k : ℤ) + 1) * 33333333)) (by simp) 0
    hchain (by simpa using le_of_eq (pts_self 30 (by norm_num) 0).symm)
  rw [hlast]
  have hgl : (((0 : ℤ) :: (List.range 299).map (fun k : ℕ => ((k : ℤ) + 1) * 33333333)).getLast
      (by simp)) = (299 : ℤ) * 33333333 := by
    rw [List.getLast_cons (by simp : (List.range 299).map (fun k : ℕ => ((k : ℤ) + 1) * 33333333) ≠ [])]
    simp
  simp only [hgl]
  rw [show ((299 : ℤ) * 33333333) = (((299 : ℕ) : ℤ) * 33333333) by norm_num]
  rw [pts_concrete 299 (by norm_num)]
  simp

/-- C2 counterexample: with target 30 fps and source timestamps
`0, 33333333, 66666666` ns, `round((t-t0)·fps/1e9) = 1` for
`t = 33333333`, but the only generated entry with userData `33333333`
has output index 0 (the first source frame yields no entry at all); and
300 source frames spaced at the 30 fps target produce 299 entries, not
the claimed 300. -/
theorem C2_counterexample :
    getFrameNumberFromTimestamp 33333333 0 30 = 1 ∧
    ((genEntries true 100 ['f'] 30 [0, 33333333, 66666666]).filter
        (fun e => e.userData == (33333333 : ℤ))).map Entry.idx = [0] ∧
    (genEntries true 100 ['f'] 30
      ((List.range 300).map (fun k : ℕ => (k : ℤ) * 33333333))).length = 299 := by
  have hp1 : getFrameNumberFromTimestamp 33333333 0 30 = 1 := by
    have h := pts_concrete 1 (by norm_num)
    norm_num at h
    exact h
  refine ⟨hp1, ?_, entries300_length 100 ['f']⟩
  have hl : ([0, 33333333, 66666666] : List ℤ) = [(0 : ℤ)] ++ (33333333 : ℤ) :: [66666666] := rfl
  have hgen : genEntries true 100 ['f'] 30 [0, 33333333, 66666666] =
      genCFRAux 100 ['f'] 30 0 0 [0, 33333333, 66666666] := rfl
  rw [hgen, hl, genCFRAux_filter_run 100 ['f'] 30 0 [(0 : ℤ)] 33333333 [66666666] 0
    (le_refl 0) (by decide) (by decide)]
  have hp0 : getFrameNumberFromTimestamp 0 0 30 = 0 := pts_self 30 (by norm_num) 0
  simp only [List.foldl_cons, List.foldl_nil, hp0, hp1]
  decide

/-- C2 (amended): with framerate conversion enabled, a positive target and
sorted source timestamps `t0 :: rest`, (1) the generated entries carry
consecutive output indices starting at 0; (2) their count is
`round((tLast-t0)·fps/1e9)` for the *last* source timestamp (so the first
frame yields no entry); (3) for distinct timestamps, the entries whose
userData is a source timestamp `x` preceded by `y` are exactly those with
indices `[round(y), round(x))` — in particular the *last* entry of a
duplication run has index `round((x-t0)·fps/1e9) - 1`, one below the
index the claim asserts; and (4) 300 source frames spaced at the 30.0 fps
target produce 299 output entries, indexed 000000 through 000298. -/
theorem C2_cfr_mapping (typ : ℕ) (bn : List Char) (fps : ℚ) (hfps : 0 < fps)
    (t0 : ℤ) (rest : List ℤ)
    (hsorted : List.Chain' (· ≤ ·) (t0 :: rest)) :
    (genEntries true typ bn fps (t0 :: rest)).map Entry.idx =
      List.range (genEntries true typ bn fps (t0 :: rest)).length ∧
    (genEntries true typ bn fps (t0 :: rest)).length =
      (getFrameNumberFromTimestamp ((t0 :: rest).getLast (by simp)) t0 fps).toNat ∧
    (∀ pre y x post, t0 :: rest = pre ++ y :: x :: post →
      (t0 :: rest).Pairwise (· ≠ ·) →
      ((genEntries true typ bn fps (t0 :: rest)).filter
          (fun e => e.userData == x)).map Entry.idx =
        List.range' (getFrameNumberFromTimestamp y t0 fps).toNat
          ((getFrameNumberFromTimestamp x t0 fps).toNat -
            (getFrameNumberFromTimestamp y t0 fps).toNat)) ∧
    (genEntries true typ bn 30
      ((List.range 300).map (fun k : ℕ => (k : ℤ) * 33333333))).length = 299 := by
  have hgen : genEntries true typ bn fps (t0 :: rest) =
      genCFRAux typ bn fps t0 0 (t0 :: rest) := rfl
  have hchainP : ((t0 :: rest).map
      (fun z => getFrameNumberFromTimestamp z t0 fps)).Chain' (· ≤ ·) := by
    rw [List.chain'_map]
    exact List.Chain'.imp (fun a b hab => pts_mono fps hfps t0 a b hab) hsorted
  refine ⟨?_, ?_, ?_, entries300_length typ bn⟩
  · rw [hgen, genCFRAux_idx_map typ bn fps t0 (t0 :: rest) 0 (le_refl 0),
      genCFRAux_length typ bn fps t0 (t0 :: rest) 0 (le_refl 0), List.range_eq_range']
    simp
  · rw [hgen, genCFRAux_length typ bn fps t0 (t0 :: rest) 0 (le_refl 0)]
    rw [foldl_max_chain_ne (fun z => getFrameNumberFromTimestamp z t0 fps) (t0 :: rest)
      (by simp) 0 hchainP (by simpa using le_of_eq (pts_self fps hfps t0).symm)]
    simp
  · intro pre y x post heq hpw
    have hsplit : (t0 :: rest) = (pre ++ [y]) ++ x :: post := by rw [heq]; simp
    rw [heq] at hpw
    obtain ⟨hpw1, hpw2, hpw12⟩ := List.pairwise_append.1 hpw
    have hyx : y ≠ x := (List.pairwise_cons.1 hpw2).1 x (by simp)
    have hxpost : x ∉ post := by
      have h1 := (List.pairwise_cons.1 (List.pairwise_cons.1 hpw2).2).1
      exact fun hmem => (h1 x hmem) rfl
    have hxpre : x ∉ pre ++ [y] := by
      intro hmem
      rcases List.mem_append.1 hmem with h | h
      · exact (hpw12 x h x (by simp)) rfl
      · rw [List.mem_singleton] at h
        exact hyx h.symm
    have hchainpre : (((pre ++ [y]).map
        (fun z => getFrameNumberFromTimestamp z t0 fps))).Chain' (· ≤ ·) := by
      have h := hchainP
      rw [hsplit, List.map_append] at h
      exact h.left_of_append
    have hmemhead : (pre ++ [y]).head (by simp) ∈ t0 :: rest := by
      rw [hsplit]
      exact List.mem_append_left _ (List.head_mem _)
    have hle : t0 ≤ (pre ++ [y]).head (by simp) := by
      have hpw_le : (t0 :: rest).Pairwise (· ≤ ·) := List.chain'_iff_pairwise.mp hsorted
      rcases List.mem_cons.1 hmemhead with h | h
      · rw [h]
      · exact (List.pairwise_cons.1 hpw_le).1 _ h
    have hhead : (0 : ℤ) ≤
        getFrameNumberFromTimestamp ((pre ++ [y]).head (by simp)) t0 fps := by
      have h := pts_mono fps hfps t0 t0 _ hle
      rwa [pts_self fps hfps t0] at h
    have hfold : (pre ++ [y]).foldl
        (fun b z => max b (getFrameNumberFromTimestamp z t0 fps)) 0 =
        getFrameNumberFromTimestamp y t0 fps := by
      rw [foldl_max_chain_ne (fun z => getFrameNumberFromTimestamp z t0 fps) (pre ++ [y])
        (by simp) 0 hchainpre hhead]
      rw [List.getLast_concat]
    rw [hgen, hsplit, genCFRAux_filter_run typ bn fps t0 (pre ++ [y]) x post 0
      (le_refl 0) hxpre hxpost, hfold]
    congr 1
    omega

/-- Witness for C2 at 30 fps and timestamps `0, 33333333, 66666666`. -/
theorem C2_cfr_mapping_witness :
    (0 < (30 : ℚ)) ∧ List.Chain' (· ≤ ·) [(0 : ℤ), 33333333, 66666666] ∧
    (genEntries true 100 ['f'] 30 [0, 33333333, 66666666]).length =
      (getFrameNumberFromTimestamp
        (([(0 : ℤ), 33333333, 66666666]).getLast (by simp)) 0 30).toNat :=
  ⟨by norm_num, by norm_num [List.chain'_cons],
    (C2_cfr_mapping 100 ['f'] 30 (by norm_num) 0 [33333333, 66666666]
      (by norm_num [List.chain'_cons])).2.1⟩

/-! ## C8 - exposure keyframes (src/src/DirectLogDecoder.cpp bundle:
`ExposureKeyframes::parse` lines 319-457, `interpolate` lines 460-478,
`getExposureAt` lines 480-517; `struct ExposureKeyframe` in
ExposureKeyframes.h)

The textual tokenizer (comma/colon splitting, whitespace trimming,
`std::stof`, the `"start"`/`"end"` synonyms) is abstracted:
`parseKeyframes` starts from the list of already-parsed
`(position, value)` pairs.  Floats are embedded as `ℚ`.  `std::sort`
with `operator<` (comparison on `position` only) leaves the relative
order of equal positions unspecified; the embedding fixes the stable
order (insertion sort), which is one of the permitted outcomes. -/

/-- Embeds `struct ExposureKeyframe` (ExposureKeyframes.h): normalized
position, exposure value in EV, and the derivative filled in by
`parse`. -/
structure ExposureKeyframe where
  position : ℚ
  value : ℚ
  derivative : ℚ
deriving DecidableEq

/-- Default keyframe used for the `getD`/`headD`/`getLastD` embeddings of
C++ vector indexing (the C++ accesses are all in-bounds). -/
def kfDefault : ExposureKeyframe := ⟨0, 0, 0⟩

/-- Embeds the derivative-assignment loop of `ExposureKeyframes::parse`
(src/src/DirectLogDecoder.cpp bundle, lines 405-449), acting on the
sorted `(position, value)` list `s` at index `i`: a keyframe at position
0 with a successor gets the slope to the next keyframe; a keyframe at
position 1 with a predecessor gets the slope from the previous keyframe;
a strictly monotonic interior keyframe gets the mean of the two adjacent
slopes (`* 0.5f`); every other keyframe gets derivative 0. -/
def assignDerivative (s : List (ℚ × ℚ)) (i : ℕ) : ExposureKeyframe :=
  if (s.getD i (0, 0)).1 = 0 ∧ i + 1 < s.length then
    ⟨(s.getD i (0, 0)).1, (s.getD i (0, 0)).2,
      ((s.getD (i + 1) (0, 0)).2 - (s.getD i (0, 0)).2) /
        ((s.getD (i + 1) (0, 0)).1 - (s.getD i (0, 0)).1)⟩
  else if (s.getD i (0, 0)).1 = 1 ∧ 0 < i then
    ⟨(s.getD i (0, 0)).1, (s.getD i (0, 0)).2,
      ((s.getD i (0, 0)).2 - (s.getD (i - 1) (0, 0)).2) /
        ((s.getD i (0, 0)).1 - (s.getD (i - 1) (0, 0)).1)⟩
  else if 0 < i ∧ i + 1 < s.length then
    if ((s.getD (i - 1) (0, 0)).2 < (s.getD i (0, 0)).2 ∧
          (s.getD i (0, 0)).2 < (s.getD (i + 1) (0, 0)).2) ∨
       ((s.getD (i - 1) (0, 0)).2 > (s.getD i (0, 0)).2 ∧
          (s.getD i (0, 0)).2 > (s.getD (i + 1) (0, 0)).2) then
      ⟨(s.getD i (0, 0)).1, (s.getD i (0, 0)).2,
        (((s.getD i (0, 0)).2 - (s.getD (i - 1) (0, 0)).2) /
            ((s.getD i (0, 0)).1 - (s.getD (i - 1) (0, 0)).1) +
         ((s.getD (i + 1) (0, 0)).2 - (s.getD i (0, 0)).2) /
            ((s.getD (i + 1) (0, 0)).1 - (s.getD i (0, 0)).1)) * (1 / 2)⟩
    else ⟨(s.getD i (0, 0)).1, (s.getD i (0, 0)).2, 0⟩
  else ⟨(s.getD i (0, 0)).1, (s.getD i (0, 0)).2, 0⟩

/-- Embeds `ExposureKeyframes::parse` (src/src/DirectLogDecoder.cpp
bundle, lines 319-457) after tokenization: keep the pairs whose position
lies in `[0, 1]` (line 375), fail when nothing is kept (line 392), sort
by position (line 397), then assign the derivatives. -/
def parseKeyframes (input : List (ℚ × ℚ)) : Option (List ExposureKeyframe) :=
  if input.filter (fun q => decide (0 ≤ q.1 ∧ q.1 ≤ 1)) = [] then none
  else
    some ((List.range
        ((input.filter (fun q => decide (0 ≤ q.1 ∧ q.1 ≤ 1))).insertionSort
          (fun a b => a.1 ≤ b.1)).length).map
      (assignDerivative
        ((input.filter (fun q => decide (0 ≤ q.1 ∧ q.1 ≤ 1))).insertionSort
          (fun a b => a.1 ≤ b.1))))

/-- Embeds `ExposureKeyframes::interpolate` (src/src/DirectLogDecoder.cpp
bundle, lines 460-478): the cubic Hermite basis at `t`, with both
endpoint derivatives scaled by the interval length. -/
def interpolate (t : ℚ) (k0 k1 : ExposureKeyframe) : ℚ :=
  let t2 := t * t
  let t3 := t2 * t
  let h00 := 2 * t3 - 3 * t2 + 1
  let h10 := t3 - 2 * t2 + t
  let h01 := -2 * t3 + 3 * t2
  let h11 := t3 - t2
  let interval := k1.position - k0.position
  let m0 := k0.derivative * interval
  let m1 := k1.derivative * interval
  h00 * k0.value + h10 * m0 + h01 * k1.value + h11 * m1

/-- Embeds the bracketing scan of `ExposureKeyframes::getExposureAt`
(src/src/DirectLogDecoder.cpp bundle, lines 504-516): the first
consecutive pair with `k0.position ≤ p ≤ k1.position` is interpolated at
`t = (p - k0.position) / (k1.position - k0.position)`; when no pair
matches, the value of the last keyframe is returned (the fallback of
line 516; the scan is only entered with at least two keyframes). -/
def findSegment (p : ℚ) : List ExposureKeyframe → ℚ
  | k0 :: k1 :: rest =>
      if k0.position ≤ p ∧ p ≤ k1.position then
        interpolate ((p - k0.position) / (k1.position - k0.position)) k0 k1
      else findSegment p (k1 :: rest)
  | [k] => k.value
  | [] => 0

/-- Embeds `ExposureKeyframes::getExposureAt`
(src/src/DirectLogDecoder.cpp bundle, lines 480-517): clamp the position
to `[0, 1]`, return the single keyframe value, the first value at or
before the first keyframe, the last value at or after the last keyframe,
and otherwise scan for the bracketing pair. -/
def getExposureAt (kfs : List ExposureKeyframe) (normalizedPosition : ℚ) : ℚ :=
  if kfs = [] then 0
  else if kfs.length = 1 then (kfs.headD kfDefault).value
  else if max 0 (min 1 normalizedPosition) ≤ (kfs.headD kfDefault).position then
    (kfs.headD kfDefault).value
  else if (kfs.getLastD kfDefault).position ≤ max 0 (min 1 normalizedPosition) then
    (kfs.getLastD kfDefault).value
  else findSegment (max 0 (min 1 normalizedPosition)) kfs

/-- C8 counterexample: duplicate positions.  The pairs
`(1/2, 1), (1/2, 2)` are both kept by `parse` (positions in range) and
yield two keyframes at the same position `1/2`; evaluation at `1/2`
returns the first value `1`, so the parsed list contains the keyframe
`(1/2, 2, 0)` at whose position the evaluator does not return its value
`2`.  The claim lacks a distinct-positions hypothesis. -/
theorem C8_counterexample :
    parseKeyframes [(1/2, 1), (1/2, 2)] =
      some [⟨1/2, 1, 0⟩, ⟨1/2, 2, 0⟩] ∧
    (⟨1/2, 2, 0⟩ : ExposureKeyframe) ∈
      [(⟨1/2, 1, 0⟩ : ExposureKeyframe), ⟨1/2, 2, 0⟩] ∧
    getExposureAt [⟨1/2, 1, 0⟩, ⟨1/2, 2, 0⟩] (1/2) = 1 ∧
    (1 : ℚ) ≠ 2 := by
  refine ⟨?_, List.mem_cons_of_mem _ (List.mem_cons_self _ _), ?_, by norm_num⟩
  · rw [parseKeyframes]
    norm_num [List.insertionSort, List.orderedInsert]
    refine ⟨by simp, ?_⟩
    norm_num [List.range_succ, assignDerivative]
  · rw [getExposureAt]
    norm_num [kfDefault, min_def, max_def]
    simp

theorem assignDerivative_position (s : List (ℚ × ℚ)) (i : ℕ) :
    (assignDerivative s i).position = (s.getD i (0, 0)).1 := by
  simp only [assignDerivative]
  split_ifs <;> rfl

theorem assignDerivative_value (s : List (ℚ × ℚ)) (i : ℕ) :
    (assignDerivative s i).value = (s.getD i (0, 0)).2 := by
  simp only [assignDerivative]
  split_ifs <;> rfl

theorem interpolate_one (k0 k1 : ExposureKeyframe) : interpolate 1 k0 k1 = k1.value := by
  simp only [interpolate]
  ring

theorem getD_append_length {α : Type} :
    ∀ (pre l : List α) (n : ℕ) (z : α),
      (pre ++ l).getD (pre.length + n) z = l.getD n z
  | [], l, n, z => by simp
  | a :: t, l, n, z => by
      rw [List.cons_append, List.length_cons,
        show t.length + 1 + n = t.length + n + 1 from by omega,
        List.getD_cons_succ, getD_append_length t l n z]

theorem getD_map_range {α : Type} (f : ℕ → α) (n i : ℕ) (h : i < n) (z : α) :
    ((List.range n).map f).getD i z = f i := by
  rw [List.getD_eq_getElem _ _ (by simpa using h)]
  simp

theorem headD_map_range {α : Type} (f : ℕ → α) (n : ℕ) (h : 0 < n) (z : α) :
    ((List.range n).map f).headD z = f 0 := by
  cases n with
  | zero => omega
  | succ m => rw [List.range_succ_eq_map]; simp

theorem getLastD_map_range {α : Type} (f : ℕ → α) (n : ℕ) (h : 0 < n) (z : α) :
    ((List.range n).map f).getLastD z = f (n - 1) := by
  cases n with
  | zero => omega
  | succ m => rw [List.range_succ, List.map_append]; simp

theorem getLastD_append_cons {α : Type} (a : α) (l : List α) :
    ∀ (pre : List α) (z : α), (pre ++ a :: l).getLastD z = (a :: l).getLastD z
  | [], _ => rfl
  | x :: t, z => by
      rw [List.cons_append, List.getLastD_cons, getLastD_append_cons a l t x,
        List.getLastD_cons, List.getLastD_cons]

theorem getLastD_cons_mem {α : Type} :
    ∀ (a : α) (l : List α) (z : α), (a :: l).getLastD z ∈ a :: l
  | _, [], _ => by simp
  | a, b :: t, _ => by
      rw [List.getLastD_cons]
      exact List.mem_cons_of_mem a (getLastD_cons_mem b t a)

theorem findSegment_spec (p : ℚ) (k0 k1 : ExposureKeyframe) (post : List ExposureKeyframe)
    (h0 : k0.position < p) (h1 : p ≤ k1.position) :
    ∀ pre : List ExposureKeyframe, (∀ x ∈ pre, x.position < p) →
      findSegment p (pre ++ k0 :: k1 :: post) =
        interpolate ((p - k0.position) / (k1.position - k0.position)) k0 k1
  | [], _ => by
      rw [List.nil_append, findSegment, if_pos ⟨le_of_lt h0, h1⟩]
  | [a], _ => by
      rw [List.cons_append, List.nil_append, findSegment,
        if_neg (fun hc => absurd hc.2 (not_le.2 h0))]
      exact findSegment_spec p k0 k1 post h0 h1 [] (by simp)
  | a :: b :: t, h => by
      rw [List.cons_append, List.cons_append, findSegment,
        if_neg (fun hc => absurd hc.2 (not_le.2 (h b (by simp)))), ← List.cons_append]
      exact findSegment_spec p k0 k1 post h0 h1 (b :: t)
        (fun x hx => h x (List.mem_cons_of_mem a hx))

theorem getExposureAt_bracket (kfs pre : List ExposureKeyframe) (k0 k1 : ExposureKeyframe)
    (post : List ExposureKeyframe) (hdec : kfs = pre ++ k0 :: k1 :: post)
    (hP : kfs.Pairwise (fun x y => x.position < y.position))
    (h00 : 0 ≤ k0.position) (h11 : k1.position ≤ 1)
    (p : ℚ) (hp0 : k0.position < p) (hp1 : p ≤ k1.position)
    (hlast : p < (kfs.getLastD kfDefault).position) :
    getExposureAt kfs p =
      interpolate ((p - k0.position) / (k1.position - k0.position)) k0 k1 := by
  subst hdec
  have hne : pre ++ k0 :: k1 :: post ≠ [] := by simp
  have hlen : ¬(pre ++ k0 :: k1 :: post).length = 1 := by
    simp only [List.length_append, List.length_cons]
    omega
  have hclamp : max 0 (min 1 p) = p := by
    rw [min_eq_right (le_trans hp1 h11), max_eq_right (le_trans h00 (le_of_lt hp0))]
  have hhead : ((pre ++ k0 :: k1 :: post).headD kfDefault).position < p := by
    cases pre with
    | nil => simpa using hp0
    | cons a t =>
        have hak : a.position < k0.position :=
          (List.pairwise_cons.1 hP).1 k0 (by simp)
        simpa using lt_trans hak hp0
  have hpre : ∀ x ∈ pre, x.position < p := by
    intro x hx
    have hxk : x.position < k0.position :=
      (List.pairwise_append.1 hP).2.2 x hx k0 (by simp)
    exact lt_trans hxk hp0
  simp only [getExposureAt]
  rw [if_neg hne, if_neg hlen, hclamp, if_neg (not_le.2 hhead), if_neg (not_le.2 hlast)]
  exact findSegment_spec p k0 k1 post hp0 hp1 pre hpre

/-- C8 (amended): for every parsed exposure-keyframe list whose input
pairs have pairwise distinct, sorted positions (any parse output is the
parse output of its own kept-and-sorted pair list, so this loses no
generality): (i) evaluation at each keyframe position returns exactly
that keyframe's value; (ii) an interior keyframe that is not strictly
monotonic — in particular a strict local extremum — gets derivative 0;
(iii) a strictly monotonic interior keyframe gets the mean of the two
adjacent segment slopes; (iv) strictly between two consecutive keyframes
the evaluator returns the cubic Hermite interpolation with both endpoint
derivatives scaled by the segment length. -/
theorem C8_keyframes (input : List (ℚ × ℚ)) (kfs : List ExposureKeyframe)
    (hrange : ∀ q ∈ input, 0 ≤ q.1 ∧ q.1 ≤ 1)
    (hsorted : input.Pairwise (fun a b => a.1 < b.1))
    (hparse : parseKeyframes input = some kfs) :
    (∀ k ∈ kfs, getExposureAt kfs k.position = k.value) ∧
    (∀ pre a b c post, input = pre ++ a :: b :: c :: post →
      ¬((a.2 < b.2 ∧ b.2 < c.2) ∨ (a.2 > b.2 ∧ b.2 > c.2)) →
      kfs.getD (pre.length + 1) kfDefault = ⟨b.1, b.2, 0⟩) ∧
    (∀ pre a b c post, input = pre ++ a :: b :: c :: post →
      ((a.2 < b.2 ∧ b.2 < c.2) ∨ (a.2 > b.2 ∧ b.2 > c.2)) →
      kfs.getD (pre.length + 1) kfDefault =
        ⟨b.1, b.2,
          ((b.2 - a.2) / (b.1 - a.1) + (c.2 - b.2) / (c.1 - b.1)) * (1 / 2)⟩) ∧
    (∀ pre k0 k1 post, kfs = pre ++ k0 :: k1 :: post →
      ∀ p, k0.position < p → p < k1.position →
      ∀ t, t = (p - k0.position) / (k1.position - k0.position) →
      getExposureAt kfs p =
        (2 * t ^ 3 - 3 * t ^ 2 + 1) * k0.value +
        (t ^ 3 - 2 * t ^ 2 + t) * (k0.derivative * (k1.position - k0.position)) +
        (-2 * t ^ 3 + 3 * t ^ 2) * k1.value +
        (t ^ 3 - t ^ 2) * (k1.derivative * (k1.position - k0.position))) := by
  have hkept : input.filter (fun q => decide (0 ≤ q.1 ∧ q.1 ≤ 1)) = input := by
    rw [List.filter_eq_self]
    intro a ha
    simpa using hrange a ha
  have hsorted2 : List.Sorted (fun a b : ℚ × ℚ => a.1 ≤ b.1) input :=
    hsorted.imp (fun h => le_of_lt h)
  have hsort : input.insertionSort (fun a b => a.1 ≤ b.1) = input :=
    List.Sorted.insertionSort_eq hsorted2
  rw [parseKeyframes, hkept, hsort] at hparse
  by_cases hne : input = []
  · rw [hne] at hparse
    simp at hparse
  rw [if_neg hne] at hparse
  have hkfs : kfs = (List.range input.length).map (assignDerivative input) :=
    (Option.some.inj hparse).symm
  have hn : 0 < input.length := List.length_pos.2 hne
  have hmemD : ∀ j, j < input.length → input.getD j (0, 0) ∈ input := by
    intro j hj
    rw [List.getD_eq_getElem _ _ hj]
    exact List.getElem_mem hj
  have hrangeD : ∀ j, j < input.length →
      0 ≤ (input.getD j (0, 0)).1 ∧ (input.getD j (0, 0)).1 ≤ 1 :=
    fun j hj => hrange _ (hmemD j hj)
  have hlt : ∀ j l : ℕ, j < l → l < input.length →
      (input.getD j (0, 0)).1 < (input.getD l (0, 0)).1 := by
    intro j l hjl hl
    rw [List.getD_eq_getElem _ _ (lt_trans hjl hl), List.getD_eq_getElem _ _ hl]
    exact List.pairwise_iff_getElem.1 hsorted j l (lt_trans hjl hl) hl hjl
  have hklen : kfs.length = input.length := by rw [hkfs]; simp
  have hkne : kfs ≠ [] := List.ne_nil_of_length_pos (by rw [hklen]; exact hn)
  have hkhead : kfs.headD kfDefault = assignDerivative input 0 := by
    rw [hkfs]; exact headD_map_range _ _ hn _
  have hklast : kfs.getLastD kfDefault =
      assignDerivative input (input.length - 1) := by
    rw [hkfs]; exact getLastD_map_range _ _ hn _
  have hkgetD : ∀ j, j < input.length →
      kfs.getD j kfDefault = assignDerivative input j := by
    intro j hj
    rw [hkfs]; exact getD_map_range _ _ _ hj _
  have hkgetE : ∀ (j : ℕ) (hj : j < kfs.length),
      kfs[j] = assignDerivative input j := by
    intro j hj
    rw [List.getElem_of_eq hkfs hj]
    simp
  have hPk : kfs.Pairwise (fun x y => x.position < y.position) := by
    rw [hkfs, List.pairwise_map]
    refine List.Pairwise.imp_of_mem ?_ (List.pairwise_lt_range input.length)
    intro a b ha hb hab
    rw [assignDerivative_position, assignDerivative_position]
    exact hlt a b hab (List.mem_range.1 hb)
  have hkr : ∀ k ∈ kfs, 0 ≤ k.position ∧ k.position ≤ 1 := by
    intro k hk
    rw [hkfs] at hk
    obtain ⟨j, hj, rfl⟩ := List.mem_map.1 hk
    rw [assignDerivative_position]
    exact hrangeD j (List.mem_range.1 hj)
  refine ⟨?_, ?_, ?_, ?_⟩
  · -- (i) evaluation at each keyframe position
    intro k hk
    rw [hkfs] at hk
    obtain ⟨j, hjr, rfl⟩ := List.mem_map.1 hk
    have hj : j < input.length := List.mem_range.1 hjr
    by_cases h1 : input.length = 1
    · simp only [getExposureAt]
      rw [if_neg hkne, if_pos (by rw [hklen, h1]), hkhead,
        show j = 0 from by omega]
    · have hq := hrangeD j hj
      have hclamp : max 0 (min 1 (assignDerivative input j).position) =
          (assignDerivative input j).position := by
        rw [assignDerivative_position, min_eq_right hq.2, max_eq_right hq.1]
      by_cases hj0 : j = 0
      · subst hj0
        simp only [getExposureAt]
        rw [if_neg hkne, if_neg (by rw [hklen]; exact h1), hclamp, hkhead,
          if_pos (le_refl _)]
      · by_cases hjl : j + 1 = input.length
        · have hno : ¬((assignDerivative input j).position ≤
              (kfs.headD kfDefault).position) := by
            rw [hkhead, assignDerivative_position, assignDerivative_position]
            exact not_le.2 (hlt 0 j (by omega) hj)
          simp only [getExposureAt]
          rw [if_neg hkne, if_neg (by rw [hklen]; exact h1), hclamp, if_neg hno,
            hklast, show input.length - 1 = j from by omega, if_pos (le_refl _)]
        · have hdec : kfs = kfs.take (j - 1) ++
              assignDerivative input (j - 1) :: assignDerivative input j ::
                kfs.drop (j + 1) := by
            conv_lhs => rw [← List.take_append_drop (j - 1) kfs]
            congr 1
            rw [List.drop_eq_getElem_cons (by rw [hklen]; omega),
              show j - 1 + 1 = j from by omega,
              List.drop_eq_getElem_cons (by rw [hklen]; omega),
              hkgetE (j - 1) (by rw [hklen]; omega), hkgetE j (by rw [hklen]; omega)]
          have hp0 : (assignDerivative input (j - 1)).position <
              (assignDerivative input j).position := by
            rw [assignDerivative_position, assignDerivative_position]
            exact hlt (j - 1) j (by omega) hj
          have hlastp : (assignDerivative input j).position <
              (kfs.getLastD kfDefault).position := by
            rw [hklast, assignDerivative_position, assignDerivative_position]
            exact hlt j (input.length - 1) (by omega) (by omega)
          have h00 : 0 ≤ (assignDerivative input (j - 1)).position := by
            rw [assignDerivative_position]
            exact (hrangeD (j - 1) (by omega)).1
          have h11 : (assignDerivative input j).position ≤ 1 := by
            rw [assignDerivative_position]
            exact hq.2
          rw [getExposureAt_bracket kfs (kfs.take (j - 1))
            (assignDerivative input (j - 1)) (assignDerivative input j)
            (kfs.drop (j + 1)) hdec hPk h00 h11
            (assignDerivative input j).position hp0 (le_refl _) hlastp,
            div_self (sub_ne_zero.2 (ne_of_gt hp0)), interpolate_one]
  · -- (ii) non-monotonic interior keyframes get derivative 0
    intro pre a b c post hin hmono
    have hblen : input.length = pre.length + 3 + post.length := by
      rw [hin]
      simp only [List.length_append, List.length_cons]
      omega
    have hib : pre.length + 1 < input.length := by omega
    have hgb : input.getD (pre.length + 1) (0, 0) = b := by
      rw [hin, getD_append_length]
      simp
    have hga : input.getD pre.length (0, 0) = a := by
      rw [hin, show pre.length = pre.length + 0 from rfl, getD_append_length]
      simp
    have hgc : input.getD (pre.length + 2) (0, 0) = c := by
      rw [hin, getD_append_length]
      simp
    have hab2 : a.1 < b.1 := by
      have h2 := (List.pairwise_append.1 (hin ▸ hsorted)).2.1
      exact (List.pairwise_cons.1 h2).1 b (by simp)
    have hbc2 : b.1 < c.1 := by
      have h2 := (List.pairwise_append.1 (hin ▸ hsorted)).2.1
      have h3 := (List.pairwise_cons.1 h2).2
      exact (List.pairwise_cons.1 h3).1 c (by simp)
    have hb0 : ¬(b.1 = 0) := by
      intro h
      have ha0 := (hrange a (by rw [hin]; simp)).1
      rw [h] at hab2
      exact absurd hab2 (not_lt.2 ha0)
    have hb1 : ¬(b.1 = 1) := by
      intro h
      have hc1 := (hrange c (by rw [hin]; simp)).2
      rw [h] at hbc2
      exact absurd (lt_of_lt_of_le hbc2 hc1) (lt_irrefl 1)
    rw [hkgetD (pre.length + 1) hib]
    simp only [assignDerivative,
      show pre.length + 1 - 1 = pre.length from by omega,
      show pre.length + 1 + 1 = pre.length + 2 from by omega, hga, hgb, hgc]
    rw [if_neg (fun hc => hb0 hc.1), if_neg (fun hc => hb1 hc.1),
      if_pos ⟨by omega, by omega⟩, if_neg hmono]
  · -- (iii) strictly monotonic interior keyframes get the mean slope
    intro pre a b c post hin hmono
    have hblen : input.length = pre.length + 3 + post.length := by
      rw [hin]
      simp only [List.length_append, List.length_cons]
      omega
    have hib : pre.length + 1 < input.length := by omega
    have hgb : input.getD (pre.length + 1) (0, 0) = b := by
      rw [hin, getD_append_length]
      simp
    have hga : input.getD pre.length (0, 0) = a := by
      rw [hin, show pre.length = pre.length + 0 from rfl, getD_append_length]
      simp
    have hgc : input.getD (pre.length + 2) (0, 0) = c := by
      rw [hin, getD_append_length]
      simp
    have hab2 : a.1 < b.1 := by
      have h2 := (List.pairwise_append.1 (hin ▸ hsorted)).2.1
      exact (List.pairwise_cons.1 h2).1 b (by simp)
    have hbc2 : b.1 < c.1 := by
      have h2 := (List.pairwise_append.1 (hin ▸ hsorted)).2.1
      have h3 := (List.pairwise_cons.1 h2).2
      exact (List.pairwise_cons.1 h3).1 c (by simp)
    have hb0 : ¬(b.1 = 0) := by
      intro h
      have ha0 := (hrange a (by rw [hin]; simp)).1
      rw [h] at hab2
      exact absurd hab2 (not_lt.2 ha0)
    have hb1 : ¬(b.1 = 1) := by
      intro h
      have hc1 := (hrange c (by rw [hin]; simp)).2
      rw [h] at hbc2
      exact absurd (lt_of_lt_of_le hbc2 hc1) (lt_irrefl 1)
    rw [hkgetD (pre.length + 1) hib]
    simp only [assignDerivative,
      show pre.length + 1 - 1 = pre.length from by omega,
      show pre.length + 1 + 1 = pre.length + 2 from by omega, hga, hgb, hgc]
    rw [if_neg (fun hc => hb0 hc.1), if_neg (fun hc => hb1 hc.1),
      if_pos ⟨by omega, by omega⟩, if_pos hmono]
  · -- (iv) cubic Hermite strictly between consecutive keyframes
    intro pre k0 k1 post hdec p hp0 hp1 t ht
    have hk0m : k0 ∈ kfs := by rw [hdec]; simp
    have hk1m : k1 ∈ kfs := by rw [hdec]; simp
    have h00 : 0 ≤ k0.position := (hkr k0 hk0m).1
    have h11 : k1.position ≤ 1 := (hkr k1 hk1m).2
    have hPd : (pre ++ k0 :: k1 :: post).Pairwise
        (fun x y => x.position < y.position) := by
      rw [← hdec]; exact hPk
    have hk1post : ∀ y ∈ post, k1.position < y.position := by
      have h2 := (List.pairwise_append.1 hPd).2.1
      have h3 := (List.pairwise_cons.1 h2).2
      exact (List.pairwise_cons.1 h3).1
    have hlastp : p < (kfs.getLastD kfDefault).position := by
      rw [hdec, getLastD_append_cons k0 (k1 :: post), List.getLastD_cons,
        List.getLastD_cons]
      have hmm := getLastD_cons_mem k1 post k0
      rw [List.getLastD_cons] at hmm
      rcases List.mem_cons.1 hmm with hm | hm
      · rw [hm]
        exact hp1
      · exact lt_trans hp1 (hk1post _ hm)
    subst ht
    rw [getExposureAt_bracket kfs pre k0 k1 post hdec hPk h00 h11 p hp0
      (le_of_lt hp1) hlastp]
    simp only [interpolate]
    ring

/-- The parsed keyframes of the C8 witness input
`(0,0), (1/4,1), (1/2,3), (1,2)`: the start keyframe gets the slope `4`
to its successor, the strictly increasing keyframe the mean `6` of the
adjacent slopes `4` and `8`, the local maximum the derivative `0`, and
the end keyframe the slope `-2` from its predecessor. -/
def c8KfsW : List ExposureKeyframe :=
  [⟨0, 0, 4⟩, ⟨1/4, 1, 6⟩, ⟨1/2, 3, 0⟩, ⟨1, 2, -2⟩]

/-- Witness for C8 at the input pairs `(0,0), (1/4,1), (1/2,3), (1,2)`. -/
theorem C8_keyframes_witness :
    (∀ k ∈ c8KfsW, getExposureAt c8KfsW k.position = k.value) ∧
    (∀ pre a b c post,
      [((0 : ℚ), (0 : ℚ)), (1/4, 1), (1/2, 3), (1, 2)] = pre ++ a :: b :: c :: post →
      ¬((a.2 < b.2 ∧ b.2 < c.2) ∨ (a.2 > b.2 ∧ b.2 > c.2)) →
      c8KfsW.getD (pre.length + 1) kfDefault = ⟨b.1, b.2, 0⟩) ∧
    (∀ pre a b c post,
      [((0 : ℚ), (0 : ℚ)), (1/4, 1), (1/2, 3), (1, 2)] = pre ++ a :: b :: c :: post →
      ((a.2 < b.2 ∧ b.2 < c.2) ∨ (a.2 > b.2 ∧ b.2 > c.2)) →
      c8KfsW.getD (pre.length + 1) kfDefault =
        ⟨b.1, b.2,
          ((b.2 - a.2) / (b.1 - a.1) + (c.2 - b.2) / (c.1 - b.1)) * (1 / 2)⟩) ∧
    (∀ pre k0 k1 post, c8KfsW = pre ++ k0 :: k1 :: post →
      ∀ p, k0.position < p → p < k1.position →
      ∀ t, t = (p - k0.position) / (k1.position - k0.position) →
      getExposureAt c8KfsW p =
        (2 * t ^ 3 - 3 * t ^ 2 + 1) * k0.value +
        (t ^ 3 - 2 * t ^ 2 + t) * (k0.derivative * (k1.position - k0.position)) +
        (-2 * t ^ 3 + 3 * t ^ 2) * k1.value +
        (t ^ 3 - t ^ 2) * (k1.derivative * (k1.position - k0.position))) :=
  C8_keyframes [((0 : ℚ), (0 : ℚ)), (1/4, 1), (1/2, 3), (1, 2)] c8KfsW
    (by norm_num [List.forall_mem_cons])
    (by norm_num [List.pairwise_cons])
    (by
      rw [parseKeyframes]
      norm_num [List.insertionSort, List.orderedInsert]
      refine ⟨by simp, ?_⟩
      norm_num [List.range_succ, assignDerivative, c8KfsW])

/-! ## C1 - entry size vs artifact size
(src/src/VirtualFileSystemImpl_MCRAW.cpp, lines 364-394 and 441-478 and
586-597; src/src/Utils.cpp, lines 479-532 and 830-1114)

`generateDng` hands the packed payload and the tag values to the
external TinyDNG writer, which is not part of the repository.  Modelled
from the spec: the emitted byte stream's length is a function of the
size-relevant parameters only — dimensions, bits per sample,
linearization-table length, matrix-presence flags, the model strings —
and of the payload length, not of the payload byte values ("all frames
share dimensions and encoding parameters", which is why the size of the
frame-0 sample DNG synthesized at init can be declared for every
frame).  The writer is therefore a parameter `writer` together with the
hypothesis `hwriter` that equal-length payloads yield equal-length
outputs for the same tag parameters. -/

/-- The size-relevant writer parameters of `generateDng`
(src/src/Utils.cpp, lines 924-1094): dimensions, final bits per sample,
linearization-table length when present (lines 1058-1094), the
matrix-presence flags (lines 1008-1016) and the model strings (lines
1032-1047); every remaining tag is fixed-size. -/
structure DngTagParams where
  width : ℕ
  height : ℕ
  encodeBits : ℕ
  linTableLen : Option ℕ
  matrixFlags : List Bool
  camModel : List Char
  buildModel : List Char
deriving DecidableEq

/-- Embeds the dimension arithmetic of `preprocessData`
(src/src/Utils.cpp, lines 495-532): the even-scale clamp, the parsed
crop target `(cropWidth, cropHeight)` (the `"WxH"` string parse is
abstracted to the parsed pair), the fallback to the input dimensions,
and the alignment of both results down to multiples of 4. -/
def computeDims (inWidth inHeight scale0 cropWidth cropHeight : ℕ) : ℕ × ℕ :=
  if 0 < cropWidth ∧ 0 < cropHeight ∧ cropWidth ≤ inWidth ∧ cropHeight ≤ inHeight then
    (cropWidth / (if 1 < scale0 then scale0 / 2 * 2 else 1) / 4 * 4,
     cropHeight / (if 1 < scale0 then scale0 / 2 * 2 else 1) / 4 * 4)
  else
    (inWidth / (if 1 < scale0 then scale0 / 2 * 2 else 1) / 4 * 4,
     inHeight / (if 1 < scale0 then scale0 / 2 * 2 else 1) / 4 * 4)

/-- Little-endian serialization of a 16-bit sample buffer: the
`encodeBits = 16` fall-through of `generateDng` (src/src/Utils.cpp,
lines 920-922) leaves the preprocessed buffer as bytes, two per
sample. -/
def toLEBytes : List ℕ → List ℕ
  | [] => []
  | s :: rest => (s % 256) :: (s / 256 % 256) :: toLEBytes rest

/-- Embeds the encode dispatch of `generateDng` (src/src/Utils.cpp,
lines 889-922): `bitsNeeded(dstWhiteLevel)` rounded up to the next
packer and the corresponding packed payload. -/
def encodeDispatch (dstWhiteLevel : ℕ) (processed : List ℕ) : ℕ × List ℕ :=
  if bitsNeeded dstWhiteLevel ≤ 2 then (2, encodeTo2Bit processed)
  else if bitsNeeded dstWhiteLevel ≤ 4 then (4, encodeTo4Bit processed)
  else if bitsNeeded dstWhiteLevel ≤ 6 then (6, encodeTo6Bit processed)
  else if bitsNeeded dstWhiteLevel ≤ 8 then (8, encodeTo8Bit processed)
  else if bitsNeeded dstWhiteLevel ≤ 10 then (10, encodeTo10Bit processed)
  else if bitsNeeded dstWhiteLevel ≤ 12 then (12, encodeTo12Bit processed)
  else if bitsNeeded dstWhiteLevel ≤ 14 then (14, encodeTo14Bit processed)
  else (16, toLEBytes processed)

/-- Embeds the table-length selection of `generateDng`
(src/src/Utils.cpp, lines 1058-1094) at the size level: the
linearization table has `dstWhiteLevel + 1` entries exactly when the
log-transform condition of line 1058 holds. -/
def linTableLen (logTransform : String) (applyShadingMap : Bool)
    (dstWhiteLevel : ℕ) : Option ℕ :=
  if logTransform ≠ "" ∧ ¬(logTransform = "Keep Input" ∧ applyShadingMap = false) then
    some (dstWhiteLevel + 1)
  else none

/-- The per-frame size-relevant inputs of `generateDng`: the frame
dimensions and levels-resolved white level from the frame metadata, and
the processed sample values abstracted as an indexing function
(`preprocessData` fills a buffer of exactly `newWidth * newHeight`
16-bit samples, src/src/Utils.cpp line 689, whatever the values). -/
structure FrameMeta where
  width : ℕ
  height : ℕ
  whiteLevel : ℚ
  pix : ℕ → ℕ

/-- Embeds the size-relevant pipeline of `generateDng`
(src/src/Utils.cpp, lines 830-1114) for one frame: preprocessed
dimensions (`computeDims`) and white selection
(`targetWhiteSelection`), the packed payload from the encode dispatch,
and the external writer applied to the resulting tag parameters and
payload. -/
def generateDngSized (writer : DngTagParams → List ℕ → List ℕ)
    (scale cropW cropH : ℕ) (asm nsm dsm : Bool) (logTransform : String)
    (camModel buildModel : List Char) (matrixFlags : List Bool)
    (fm : FrameMeta) : List ℕ :=
  writer
    ⟨(computeDims fm.width fm.height scale cropW cropH).1,
     (computeDims fm.width fm.height scale cropW cropH).2,
     (encodeDispatch
        (ushortCast (targetWhiteSelection asm nsm dsm logTransform fm.whiteLevel).2.1)
        ((List.range
            ((computeDims fm.width fm.height scale cropW cropH).1 *
             (computeDims fm.width fm.height scale cropW cropH).2)).map fm.pix)).1,
     linTableLen logTransform asm
       (ushortCast (targetWhiteSelection asm nsm dsm logTransform fm.whiteLevel).2.1),
     matrixFlags, camModel, buildModel⟩
    (encodeDispatch
        (ushortCast (targetWhiteSelection asm nsm dsm logTransform fm.whiteLevel).2.1)
        ((List.range
            ((computeDims fm.width fm.height scale cropW cropH).1 *
             (computeDims fm.width fm.height scale cropW cropH).2)).map fm.pix)).2

theorem toLEBytes_length : ∀ data : List ℕ, (toLEBytes data).length = 2 * data.length
  | [] => rfl
  | s :: rest => by
      simp only [toLEBytes, List.length_cons]
      rw [toLEBytes_length rest]
      omega

theorem encodeDispatch_length (dw : ℕ) (d1 d2 : List ℕ) (h : d1.length = d2.length) :
    (encodeDispatch dw d1).1 = (encodeDispatch dw d2).1 ∧
    (encodeDispatch dw d1).2.length = (encodeDispatch dw d2).2.length := by
  unfold encodeDispatch
  split_ifs <;>
    simp [encodeTo2Bit_length, encodeTo4Bit_length, encodeTo6Bit_length,
      encodeTo8Bit_length, encodeTo10Bit_length, encodeTo12Bit_length,
      encodeTo14Bit_length, toLEBytes_length, h]

theorem genSeqAux_mem (typ : ℕ) (bn : List Char) :
    ∀ (xs : List ℤ) (n : ℕ) (e : Entry), e ∈ genSeqAux typ bn n xs →
      e.size = typ ∧ e.userData ∈ xs
  | [], _, _, h => absurd h (by simp [genSeqAux])
  | x :: rest, n, e, h => by
      rw [genSeqAux] at h
      rcases List.mem_cons.1 h with h1 | h1
      · subst h1
        exact ⟨rfl, List.mem_cons_self x rest⟩
      · obtain ⟨hs, hu⟩ := genSeqAux_mem typ bn rest (n + 1) e h1
        exact ⟨hs, List.mem_cons_of_mem x hu⟩

theorem genEntries_mem (applyCFR : Bool) (typ : ℕ) (bn : List Char) (fps : ℚ)
    (frames : List ℤ) (e : Entry) (he : e ∈ genEntries applyCFR typ bn fps frames) :
    e.size = typ ∧ e.userData ∈ frames := by
  match frames with
  | [] => exact absurd he (by simp [genEntries])
  | t0 :: rest =>
      rw [genEntries] at he
      cases applyCFR with
      | true =>
          rw [if_pos rfl] at he
          exact genCFRAux_mem typ bn fps t0 (t0 :: rest) 0 e he
      | false =>
          rw [if_neg (by simp)] at he
          exact genSeqAux_mem typ bn (t0 :: rest) 0 e he

theorem readWindow_full (a : List ℕ) : readWindow a 0 a.length = (a.length, a) := by
  rw [readWindow]
  by_cases h : 0 < a.length
  · rw [if_pos h]
    simp
  · have ha : a = [] := List.length_eq_zero.1 (by omega)
    subst ha
    rfl

theorem readWindow_past (a : List ℕ) (pos len : ℕ) (h : a.length ≤ pos) :
    readWindow a pos len = (0, []) := by
  rw [readWindow, if_neg (not_lt.2 h)]

/-- C1: with the sample size `typ` taken from the frame-0 artifact as
`init` does (line 394), every produced `.dng` entry — in both the CFR
and the sequential branches and for every render configuration — has
its declared size equal to the byte length of the artifact generated
for it (all frames sharing the size-relevant metadata, and the writer
length depending only on the tag parameters and payload length), so a
read of `[0, size)` returns exactly `size` bytes, and any read at or
past the artifact size returns zero bytes. -/
theorem C1_entry_size
    (writer : DngTagParams → List ℕ → List ℕ)
    (hwriter : ∀ ps d1 d2, d1.length = d2.length →
      (writer ps d1).length = (writer ps d2).length)
    (scale cropW cropH : ℕ) (asm nsm dsm : Bool) (logTransform : String)
    (camModel buildModel : List Char) (matrixFlags : List Bool)
    (fmOf : ℤ → FrameMeta) (frames : List ℤ) (t0 : ℤ) (rest : List ℤ)
    (hframes : frames = t0 :: rest)
    (hshare : ∀ t ∈ frames, (fmOf t).width = (fmOf t0).width ∧
      (fmOf t).height = (fmOf t0).height ∧ (fmOf t).whiteLevel = (fmOf t0).whiteLevel)
    (applyCFR : Bool) (bn : List Char) (fps : ℚ) (typ : ℕ)
    (htyp : typ = (generateDngSized writer scale cropW cropH asm nsm dsm logTransform
      camModel buildModel matrixFlags (fmOf t0)).length) :
    ∀ e ∈ genEntries applyCFR typ bn fps frames,
      e.size = (generateDngSized writer scale cropW cropH asm nsm dsm logTransform
          camModel buildModel matrixFlags (fmOf e.userData)).length ∧
      readWindow (generateDngSized writer scale cropW cropH asm nsm dsm logTransform
          camModel buildModel matrixFlags (fmOf e.userData)) 0 e.size =
        (e.size, generateDngSized writer scale cropW cropH asm nsm dsm logTransform
          camModel buildModel matrixFlags (fmOf e.userData)) ∧
      ∀ pos len,
        (generateDngSized writer scale cropW cropH asm nsm dsm logTransform
          camModel buildModel matrixFlags (fmOf e.userData)).length ≤ pos →
        readWindow (generateDngSized writer scale cropW cropH asm nsm dsm logTransform
          camModel buildModel matrixFlags (fmOf e.userData)) pos len = (0, []) := by
  have hlen : ∀ t ∈ frames,
      (generateDngSized writer scale cropW cropH asm nsm dsm logTransform
        camModel buildModel matrixFlags (fmOf t)).length =
      (generateDngSized writer scale cropW cropH asm nsm dsm logTransform
        camModel buildModel matrixFlags (fmOf t0)).length := by
    intro t ht
    obtain ⟨hw, hh, hwl⟩ := hshare t ht
    simp only [generateDngSized, hw, hh, hwl]
    obtain ⟨hbits, hplen⟩ := encodeDispatch_length
      (ushortCast (targetWhiteSelection asm nsm dsm logTransform
        (fmOf t0).whiteLevel).2.1)
      ((List.range
          ((computeDims (fmOf t0).width (fmOf t0).height scale cropW cropH).1 *
           (computeDims (fmOf t0).width (fmOf t0).height scale cropW cropH).2)).map
        (fmOf t).pix)
      ((List.range
          ((computeDims (fmOf t0).width (fmOf t0).height scale cropW cropH).1 *
           (computeDims (fmOf t0).width (fmOf t0).height scale cropW cropH).2)).map
        (fmOf t0).pix)
      (by simp)
    rw [hbits]
    exact hwriter _ _ _ hplen
  intro e he
  obtain ⟨hsize, hmem⟩ := genEntries_mem applyCFR typ bn fps frames e he
  have hl : (generateDngSized writer scale cropW cropH asm nsm dsm logTransform
      camModel buildModel matrixFlags (fmOf e.userData)).length = typ := by
    rw [htyp]
    exact hlen e.userData hmem
  refine ⟨by rw [hsize, hl], ?_, fun pos len hp => readWindow_past _ pos len hp⟩
  rw [hsize, ← hl, readWindow_full]

/-- Witness for C1 at the concrete entry `f-000000.dng` (size 40,
userData 5): identity writer, two frames at timestamps 5 and 10 sharing
8x4 dimensions and white level 1023 (10-bit), zero pixels, no scaling,
no crop, no shading map, no log transform.  The packed frame-0 payload
is `32 / 4 * 5 = 40` bytes. -/
theorem C1_entry_size_witness :
    (⟨"f-000000.dng".toList, 40, 5, 0⟩ : Entry) ∈
      genEntries false 40 ['f'] 30 [5, 10] ∧
    ((⟨"f-000000.dng".toList, 40, 5, 0⟩ : Entry).size =
      (generateDngSized (fun _ d => d) 1 0 0 false false false ""
        [] [] [] (⟨8, 4, 1023, fun _ => 0⟩ : FrameMeta)).length ∧
     readWindow (generateDngSized (fun _ d => d) 1 0 0 false false false ""
        [] [] [] (⟨8, 4, 1023, fun _ => 0⟩ : FrameMeta)) 0
        (⟨"f-000000.dng".toList, 40, 5, 0⟩ : Entry).size =
       ((⟨"f-000000.dng".toList, 40, 5, 0⟩ : Entry).size,
        generateDngSized (fun _ d => d) 1 0 0 false false false ""
          [] [] [] (⟨8, 4, 1023, fun _ => 0⟩ : FrameMeta)) ∧
     ∀ pos len,
       (generateDngSized (fun _ d => d) 1 0 0 false false false ""
         [] [] [] (⟨8, 4, 1023, fun _ => 0⟩ : FrameMeta)).length ≤ pos →
       readWindow (generateDngSized (fun _ d => d) 1 0 0 false false false ""
         [] [] [] (⟨8, 4, 1023, fun _ => 0⟩ : FrameMeta)) pos len = (0, [])) :=
  ⟨by decide,
    C1_entry_size (fun _ d => d) (fun _ _ _ h => h) 1 0 0 false false false ""
      [] [] [] (fun _ : ℤ => (⟨8, 4, 1023, fun _ => 0⟩ : FrameMeta)) [5, 10] 5 [10]
      rfl (fun _ _ => ⟨rfl, rfl, rfl⟩) false ['f'] 30 40 (by decide)
      ⟨"f-000000.dng".toList, 40, 5, 0⟩ (by decide)⟩
